import Mathlib

/-!
Verification of the Lanstreaming UDP streaming core.

This file shallowly embeds the data model and the operations of the
repository (src/src/core/types.h, src/src/net/protocol.h,
src/src/net/packet_fragmenter.cpp, src/src/net/packet_assembler.cpp,
src/src/core/thread_safe_queue.h, src/src/net/server.cpp,
src/src/app/host_session.cpp, src/src/encode/video_encoder.cpp) and
proves or refutes the behavioural claims of the specification.

Machine integers are modelled as `Nat` with explicit `% 2^w` at the
places where the C++ code performs a narrowing cast; byte sequences are
`List Nat`; fallible operations return `Option`; the steady-clock time
used by the assembler is threaded as an explicit `Nat` parameter.
-/

namespace Lancast

/-- `FrameType` from core/types.h. -/
inductive FrameType where
  | VideoKeyframe
  | VideoPFrame
  | Audio
deriving DecidableEq, Repr

/-- `EncodedPacket` from core/types.h: opaque codec bytes, a frame type
tag, a signed 64-bit presentation timestamp and a 16-bit frame id. -/
structure EncodedPacket where
  data : List Nat := []
  type : FrameType := FrameType.VideoPFrame
  pts_us : Int := 0
  frame_id : Nat := 0
deriving DecidableEq, Repr

/-! Protocol constants from net/protocol.h. -/

def PROTOCOL_MAGIC : Nat := 0xAA
def PROTOCOL_VERSION : Nat := 1
def MAX_UDP_PAYLOAD : Nat := 1200
def HEADER_SIZE : Nat := 16
def MAX_FRAGMENT_DATA : Nat := MAX_UDP_PAYLOAD - HEADER_SIZE

/-! `PacketType` codes from net/protocol.h. -/

def VIDEO_DATA : Nat := 0x01
def AUDIO_DATA : Nat := 0x02
def HELLO : Nat := 0x10
def WELCOME : Nat := 0x11
def ACK : Nat := 0x12
def NACK : Nat := 0x13
def KEYFRAME_REQ : Nat := 0x14
def PING : Nat := 0x20
def PONG : Nat := 0x21
def BYE : Nat := 0x30
def STREAM_CONFIG : Nat := 0x40

/-! `PacketFlags` from net/protocol.h. -/

def FLAG_NONE : Nat := 0x00
def FLAG_KEYFRAME : Nat := 0x01
def FLAG_FIRST : Nat := 0x02
def FLAG_LAST : Nat := 0x04

/-- The 16-byte packed `PacketHeader` from net/protocol.h.  Field widths
(u8/u32/u16) are enforced by `% 2^w` at the points where the C++ code
narrows. -/
structure PacketHeader where
  magic : Nat := 0
  version : Nat := 0
  type : Nat := 0
  flags : Nat := 0
  sequence : Nat := 0
  timestamp_us : Nat := 0
  frame_id : Nat := 0
  frag_idx : Nat := 0
  frag_total : Nat := 0
deriving DecidableEq, Repr

/-- `PacketHeader::is_valid`: magic is 0xAA and version matches. -/
def PacketHeader.is_valid (h : PacketHeader) : Bool :=
  h.magic == 0xAA && h.version == PROTOCOL_VERSION

/-- Little-endian byte serialization of a 16-bit value. -/
def le16 (n : Nat) : List Nat := [n % 256, n / 2 ^ 8 % 256]

/-- Little-endian byte serialization of a 32-bit value. -/
def le32 (n : Nat) : List Nat :=
  [n % 256, n / 2 ^ 8 % 256, n / 2 ^ 16 % 256, n / 2 ^ 24 % 256]

/-- Little-endian byte serialization of a 64-bit value. -/
def le64 (n : Nat) : List Nat :=
  [n % 256, n / 2 ^ 8 % 256, n / 2 ^ 16 % 256, n / 2 ^ 24 % 256,
   n / 2 ^ 32 % 256, n / 2 ^ 40 % 256, n / 2 ^ 48 % 256, n / 2 ^ 56 % 256]

/-- `PacketHeader::to_network`: memcpy of the packed struct, i.e. the
fields laid out little-endian in declaration order (16 bytes). -/
def PacketHeader.to_network (h : PacketHeader) : List Nat :=
  [h.magic % 256, h.version % 256, h.type % 256, h.flags % 256]
    ++ le32 (h.sequence % 2 ^ 32) ++ le32 (h.timestamp_us % 2 ^ 32)
    ++ le16 (h.frame_id % 2 ^ 16) ++ [h.frag_idx % 256, h.frag_total % 256]

/-- A complete UDP packet: header + opaque payload (net/protocol.h). -/
structure Packet where
  header : PacketHeader := {}
  payload : List Nat := []
deriving DecidableEq, Repr

/-- `Packet::serialize`: header bytes followed by payload bytes. -/
def Packet.serialize (p : Packet) : List Nat :=
  p.header.to_network ++ p.payload

/-! ## PacketFragmenter (net/packet_fragmenter.cpp) -/

/-- `num_frags = ceil(data_size / MAX_FRAGMENT_DATA)` as computed by
`(data_size + MAX_FRAGMENT_DATA - 1) / MAX_FRAGMENT_DATA`. -/
def numFrags (len : Nat) : Nat :=
  (len + MAX_FRAGMENT_DATA - 1) / MAX_FRAGMENT_DATA

/-- Payload of fragment `i`: the byte range
`[i*MAX_FRAGMENT_DATA, i*MAX_FRAGMENT_DATA + min(MAX_FRAGMENT_DATA, rest))`. -/
def fragPayload (data : List Nat) (i : Nat) : List Nat :=
  (data.drop (i * MAX_FRAGMENT_DATA)).take MAX_FRAGMENT_DATA

/-- `PacketType` chosen by the fragmenter switch on the frame type. -/
def FrameType.packetType : FrameType → Nat
  | FrameType.VideoKeyframe => VIDEO_DATA
  | FrameType.VideoPFrame => VIDEO_DATA
  | FrameType.Audio => AUDIO_DATA

/-- Initial flags of the fragmenter switch: KEYFRAME for keyframes. -/
def FrameType.keyflags : FrameType → Nat
  | FrameType.VideoKeyframe => FLAG_KEYFRAME
  | _ => FLAG_NONE

/-- Fragment `i` of `num_frags n` for packet `encoded`, sequence counter
`seq` (`frag_idx`/`frag_total` narrowed to u8 by `static_cast<uint8_t>`,
the timestamp narrowed to the low 32 bits of `pts_us`). -/
def fragPacket (encoded : EncodedPacket) (seq n i : Nat) : Packet :=
  { header :=
      { magic := PROTOCOL_MAGIC
        version := PROTOCOL_VERSION
        type := encoded.type.packetType
        flags := encoded.type.keyflags
          ||| (if i = 0 then FLAG_FIRST else 0)
          ||| (if i = n - 1 then FLAG_LAST else 0)
        sequence := (seq + i) % 2 ^ 32
        timestamp_us := (encoded.pts_us % (2 ^ 32 : Int)).toNat
        frame_id := encoded.frame_id
        frag_idx := i % 256
        frag_total := n % 256 }
    payload := fragPayload encoded.data i }

/-- `PacketFragmenter::fragment`: split an encoded packet into fragments
and advance the caller's sequence counter by one per fragment. -/
def PacketFragmenter.fragment (encoded : EncodedPacket) (seq : Nat) :
    List Packet × Nat :=
  if encoded.data.length = 0 then ([], seq)
  else
    let n := numFrags encoded.data.length
    ((List.range n).map (fragPacket encoded seq n), (seq + n) % 2 ^ 32)

/-! ## PacketAssembler (net/packet_assembler.cpp) -/

/-- Reassembly key: `(frame_id, type)` as in `FrameKey`. -/
abbrev FrameKey := Nat × Nat

/-- `FrameState` from net/packet_assembler.h. An unfilled fragment slot
is the empty byte list, exactly as the C++ code distinguishes slots by
`empty()`. `created` is the steady-clock instant in milliseconds. -/
structure FrameState where
  frame_id : Nat := 0
  frag_total : Nat := 0
  frags_received : Nat := 0
  type : Nat := VIDEO_DATA
  flags : Nat := 0
  timestamp_us : Nat := 0
  fragments : List (List Nat) := []
  created : Nat := 0
  nack_sent : Bool := false
deriving DecidableEq, Repr

/-- The assembler's `pending_` map, modelled as an association list with
unique keys. -/
structure PacketAssembler where
  pending : List (FrameKey × FrameState) := []
deriving DecidableEq, Repr

/-- Map lookup (`pending_.find(key)`). -/
def findEntry (k : FrameKey) (m : List (FrameKey × FrameState)) :
    Option FrameState :=
  (m.find? fun e => e.1 == k).map Prod.snd

/-- Map store: replace the value at `k` if present, append otherwise. -/
def putEntry (k : FrameKey) (v : FrameState)
    (m : List (FrameKey × FrameState)) : List (FrameKey × FrameState) :=
  if m.any fun e => e.1 == k then
    m.map fun e => if e.1 == k then (k, v) else e
  else m ++ [(k, v)]

/-- Map erase (`pending_.erase(it)`). -/
def eraseEntry (k : FrameKey) (m : List (FrameKey × FrameState)) :
    List (FrameKey × FrameState) :=
  m.filter fun e => !(e.1 == k)

/-- The fresh `FrameState` built when `feed` sees an unknown key. -/
def initState (h : PacketHeader) (now : Nat) : FrameState :=
  { frame_id := h.frame_id
    frag_total := h.frag_total
    frags_received := 0
    type := h.type
    flags := h.flags
    timestamp_us := h.timestamp_us
    fragments := List.replicate h.frag_total []
    created := now
    nack_sent := false }

/-- Assembly of a completed `FrameState` into an `EncodedPacket`
(concatenate slots, zero-extend the 32-bit timestamp to `pts_us`,
recover the frame type from the packet type and accumulated flags). -/
def assembleResult (st : FrameState) : EncodedPacket :=
  { data := st.fragments.flatten
    frame_id := st.frame_id
    pts_us := (st.timestamp_us : Int)
    type :=
      if st.type = AUDIO_DATA then FrameType.Audio
      else if st.flags &&& FLAG_KEYFRAME ≠ 0 then FrameType.VideoKeyframe
      else FrameType.VideoPFrame }

/-- `PacketAssembler::feed`.  Mirrors the C++ control flow: validity and
`frag_total` checks, then entry creation for an unknown key (before any
index check), then the `frag_idx` bound check, the duplicate-slot check,
the store, and emission when the frame completes. -/
def PacketAssembler.feed (a : PacketAssembler) (now : Nat) (packet : Packet) :
    Option EncodedPacket × PacketAssembler :=
  let h := packet.header
  if !h.is_valid then (none, a)
  else if h.frag_total = 0 then (none, a)
  else
    let key : FrameKey := (h.frame_id, h.type)
    let st0 := (findEntry key a.pending).getD (initState h now)
    if st0.frag_total ≤ h.frag_idx then (none, ⟨putEntry key st0 a.pending⟩)
    else if st0.fragments.getD h.frag_idx [] ≠ [] then
      (none, ⟨putEntry key st0 a.pending⟩)
    else
      let st1 : FrameState :=
        { st0 with
          fragments := st0.fragments.set h.frag_idx packet.payload
          frags_received := st0.frags_received + 1
          flags := st0.flags ||| h.flags }
      if st1.frags_received < st1.frag_total then
        (none, ⟨putEntry key st1 a.pending⟩)
      else (some (assembleResult st1), ⟨eraseEntry key a.pending⟩)

/-- Feed a list of packets in order, collecting every emitted packet. -/
def PacketAssembler.feedAll (a : PacketAssembler) (now : Nat)
    (ps : List Packet) : List EncodedPacket × PacketAssembler :=
  ps.foldl (fun acc p =>
    let r := acc.2.feed now p
    (acc.1 ++ r.1.toList, r.2)) ([], a)

/-- `IncompleteKeyframe` from net/packet_assembler.h. -/
structure IncompleteKeyframe where
  frame_id : Nat := 0
  frag_total : Nat := 0
  missing_indices : List Nat := []
deriving DecidableEq, Repr

/-- Indices of empty fragment slots of a pending entry. -/
def missingOf (st : FrameState) : List Nat :=
  (List.range st.frag_total).filter fun i => st.fragments.getD i [] == []

/-- Per-entry step of `check_incomplete_keyframes`: report (and mark
`nack_sent`) a keyframe entry older than the threshold that still has
empty slots. -/
def ckStep (now age_ms : Nat) (e : FrameKey × FrameState) :
    Option IncompleteKeyframe × (FrameKey × FrameState) :=
  let st := e.2
  if st.flags &&& FLAG_KEYFRAME = 0 then (none, e)
  else if st.nack_sent then (none, e)
  else if now - st.created < age_ms then (none, e)
  else
    let missing := missingOf st
    if missing = [] then (none, e)
    else (some ⟨st.frame_id, st.frag_total, missing⟩,
          (e.1, { st with nack_sent := true }))

/-- `PacketAssembler::check_incomplete_keyframes`: scan all pending
entries, reporting each stale incomplete keyframe at most once. -/
def PacketAssembler.check_incomplete_keyframes (a : PacketAssembler)
    (age_ms now : Nat) : List IncompleteKeyframe × PacketAssembler :=
  (a.pending.filterMap fun e => (ckStep now age_ms e).1,
   ⟨a.pending.map fun e => (ckStep now age_ms e).2⟩)

/-- `PacketAssembler::purge_stale`: drop entries strictly older than the
timeout. -/
def PacketAssembler.purge_stale (a : PacketAssembler)
    (timeout_ms now : Nat) : PacketAssembler :=
  ⟨a.pending.filter fun e => !(decide (timeout_ms < now - e.2.created))⟩

/-! ## ThreadSafeQueue (core/thread_safe_queue.h)

The mutex and the condition variable serialize the operations; each
operation is modelled as a pure state transition on the protected
state `(queue_, max_size_, closed_)`. -/

/-- The state protected by the queue's mutex. -/
structure ThreadSafeQueue (α : Type) where
  queue : List α := []
  max_size : Nat := 0
  closed : Bool := false
deriving Repr

/-- `ThreadSafeQueue::push`: when bounded and at capacity, drop the
oldest element, then enqueue.  The C++ code performs no `closed_`
check. -/
def ThreadSafeQueue.push {α : Type} (q : ThreadSafeQueue α) (item : α) :
    ThreadSafeQueue α :=
  let base :=
    if 0 < q.max_size ∧ q.max_size ≤ q.queue.length then q.queue.drop 1
    else q.queue
  { q with queue := base ++ [item] }

/-- `ThreadSafeQueue::try_pop`: front element if any. -/
def ThreadSafeQueue.try_pop {α : Type} (q : ThreadSafeQueue α) :
    Option α × ThreadSafeQueue α :=
  match q.queue with
  | [] => (none, q)
  | x :: rest => (some x, { q with queue := rest })

/-- `ThreadSafeQueue::wait_pop` after the wait completes (woken by an
item, by `close()`, or by the timeout): front element if any, `none` on
an empty queue. -/
def ThreadSafeQueue.wait_pop {α : Type} (q : ThreadSafeQueue α) :
    Option α × ThreadSafeQueue α :=
  match q.queue with
  | [] => (none, q)
  | x :: rest => (some x, { q with queue := rest })

/-- `ThreadSafeQueue::close`: set the closed flag (and wake waiters). -/
def ThreadSafeQueue.close {α : Type} (q : ThreadSafeQueue α) :
    ThreadSafeQueue α :=
  { q with closed := true }

/-! ## Server (net/server.h, net/server.cpp) -/

/-- `Endpoint` from net/socket.h; equality is field equality. -/
structure Endpoint where
  ip : String := ""
  port : Nat := 0
deriving DecidableEq, Repr

instance : BEq Endpoint := instBEqOfDecidableEq

/-- `Server::ClientInfo`: peer record. The RTT (a C++ double holding an
exact millisecond quotient) is modelled as a rational. -/
structure ClientInfo where
  endpoint : Endpoint := {}
  rtt_ms : Rat := 0
  rtt_valid : Bool := false
deriving DecidableEq, Repr

/-- `StreamConfig` from core/types.h. -/
structure StreamConfig where
  width : Nat := 1920
  height : Nat := 1080
  fps : Nat := 30
  video_bitrate : Nat := 6000000
  audio_sample_rate : Nat := 48000
  audio_channels : Nat := 2
  codec_data : List Nat := []
deriving DecidableEq, Repr

/-- `Server::KeyframeCache`. -/
structure KeyframeCache where
  frame_id : Nat := 0
  fragments : List Packet := []
deriving DecidableEq, Repr

/-- The server state mutated by `poll` dispatch: peer table, sequence
counter (a u16 in server.h), stream config, keyframe cache and the
client-upstream audio reassembler. -/
structure ServerState where
  clients : List ClientInfo := []
  sequence : Nat := 0
  config : StreamConfig := {}
  last_keyframe : KeyframeCache := {}
  client_audio_assembler : PacketAssembler := {}
deriving DecidableEq, Repr

/-- Externally observable effects of a dispatch step: datagrams sent,
the keyframe-request callback, the client-audio callback. -/
inductive ServerAction where
  | send (data : List Nat) (dest : Endpoint)
  | keyframeCb
  | clientAudioCb (p : EncodedPacket)
deriving DecidableEq, Repr

/-- Field bytes of `WelcomePayload` (protocol.h): five u32 and one u16,
little-endian, 22 bytes. -/
def welcomeFieldBytes (c : StreamConfig) : List Nat :=
  le32 (c.width % 2 ^ 32) ++ le32 (c.height % 2 ^ 32) ++ le32 (c.fps % 2 ^ 32)
    ++ le32 (c.video_bitrate % 2 ^ 32) ++ le32 (c.audio_sample_rate % 2 ^ 32)
    ++ le16 (c.audio_channels % 2 ^ 16)

/-- `sizeof(WelcomePayload)`.  The struct is declared outside the
`#pragma pack(push, 1)` region of protocol.h, so it keeps natural
alignment: 22 bytes of fields rounded up to the 4-byte alignment,
i.e. 24. -/
def sizeofWelcomePayload : Nat := 24

/-- The WELCOME payload as built by `handle_hello`:
`payload.resize(sizeof(WelcomePayload))` (zero fill) then a `memcpy` of
the struct — field bytes at their aligned offsets followed by the two
tail padding bytes (indeterminate in C++; the claims below depend only
on the length, never on the padding values). -/
def welcomePayloadBytes (c : StreamConfig) : List Nat :=
  welcomeFieldBytes c ++ [0, 0]

/-- The WELCOME packet built by `Server::handle_hello`. -/
def mkWelcomePacket (c : StreamConfig) (seq : Nat) : Packet :=
  { header :=
      { magic := PROTOCOL_MAGIC
        version := PROTOCOL_VERSION
        type := WELCOME
        sequence := seq }
    payload := welcomePayloadBytes c }

/-- `Server::send_stream_config`: nothing when `codec_data` is empty,
otherwise one STREAM_CONFIG datagram carrying the raw codec bytes. -/
def Server.send_stream_config (s : ServerState) (dest : Endpoint) :
    ServerState × List ServerAction :=
  if s.config.codec_data = [] then (s, [])
  else
    let pkt : Packet :=
      { header :=
          { magic := PROTOCOL_MAGIC
            version := PROTOCOL_VERSION
            type := STREAM_CONFIG
            sequence := s.sequence }
        payload := s.config.codec_data }
    ({ s with sequence := (s.sequence + 1) % 2 ^ 16 },
     [ServerAction.send pkt.serialize dest])

/-- `Server::handle_hello`: ignore a known endpoint; otherwise add it to
the peer table and send WELCOME followed by (conditionally)
STREAM_CONFIG. -/
def Server.handle_hello (s : ServerState) (source : Endpoint) :
    ServerState × List ServerAction :=
  if s.clients.any fun c => c.endpoint == source then (s, [])
  else
    let s1 :=
      { s with clients := s.clients ++ [({ endpoint := source } : ClientInfo)] }
    let welcome := mkWelcomePacket s1.config s1.sequence
    let s2 := { s1 with sequence := (s1.sequence + 1) % 2 ^ 16 }
    let r := Server.send_stream_config s2 source
    (r.1, ServerAction.send welcome.serialize source :: r.2)

/-- Read `len` little-endian bytes at offset `off` (out-of-range bytes
read as 0; the C++ code never reaches them thanks to its size checks). -/
def readLE (bytes : List Nat) (off len : Nat) : Nat :=
  (List.range len).foldl (fun acc i => acc + bytes.getD (off + i) 0 * 256 ^ i) 0

/-- The `handle_pong` update loop: set RTT on the first matching peer
and stop (the C++ loop breaks after the first match). -/
def updateFirst : List ClientInfo → Endpoint → Rat → List ClientInfo
  | [], _, _ => []
  | c :: rest, source, rtt =>
    if c.endpoint == source then
      { c with rtt_ms := rtt, rtt_valid := true } :: rest
    else c :: updateFirst rest source rtt

/-- `Server::handle_pong`: parse the u64 echo timestamp, compute
`rtt = now - send_time` in milliseconds, discard when `rtt < 0` or
`rtt > 10000`, otherwise store it on the matching peer. -/
def Server.handle_pong (s : ServerState) (payload : List Nat)
    (source : Endpoint) (now_us : Nat) : ServerState :=
  if payload.length < 8 then s
  else
    let ts := readLE payload 0 8
    let rtt : Rat := ((now_us : Rat) - (ts : Rat)) / 1000
    if rtt < 0 ∨ 10000 < rtt then s
    else { s with clients := updateFirst s.clients source rtt }

/-- `Server::handle_nack`: parse `{frame_id, num_missing}` and the
trailing u16 indices (stopping at the payload end), ignore a stale
frame id, and resend the cached fragment at each in-range index. -/
def Server.handle_nack (s : ServerState) (payload : List Nat)
    (source : Endpoint) : ServerState × List ServerAction :=
  if payload.length < 4 then (s, [])
  else
    let np_frame_id := readLE payload 0 2
    let num_missing := readLE payload 2 2
    if np_frame_id ≠ s.last_keyframe.frame_id then (s, [])
    else
      let count := min num_missing ((payload.length - 4) / 2)
      let idxs := (List.range count).map fun i => readLE payload (4 + 2 * i) 2
      (s, idxs.filterMap fun idx =>
        if idx < s.last_keyframe.fragments.length then
          some (ServerAction.send
            ((s.last_keyframe.fragments.getD idx ({} : Packet)).serialize) source)
        else none)

/-- The receive dispatch of `Server::poll`: the switch over the packet
type.  VIDEO_DATA and AUDIO_DATA fall into the `default` case: the
client-upstream assembler is never fed and the client-audio callback is
never invoked. -/
def Server.dispatch (s : ServerState) (packet : Packet) (source : Endpoint)
    (now_us : Nat) : ServerState × List ServerAction :=
  if !packet.header.is_valid then (s, [])
  else if packet.header.type = HELLO then Server.handle_hello s source
  else if packet.header.type = BYE then
    ({ s with clients := s.clients.filter fun c => !(c.endpoint == source) }, [])
  else if packet.header.type = KEYFRAME_REQ then (s, [ServerAction.keyframeCb])
  else if packet.header.type = PONG then
    (Server.handle_pong s packet.payload source now_us, [])
  else if packet.header.type = NACK then
    Server.handle_nack s packet.payload source
  else (s, [])

/-- `Client::send_nack` payload bytes: `NackPayload{frame_id,
num_missing}` followed by the u16 missing indices.

Modelled from the spec: the `NackPayload` struct itself is declared in
code of this repository that is not under src/ (only its uses in
server.cpp/client.cpp and its size test remain); per §4.1 it is 4 bytes,
`frame_id` (u16) then `num_missing` (u16), little-endian. -/
def Client.nack_payload (frame_id : Nat) (missing : List Nat) : List Nat :=
  le16 (frame_id % 2 ^ 16) ++ le16 (missing.length % 2 ^ 16)
    ++ (missing.map fun i => le16 (i % 2 ^ 16)).flatten

/-- `PingPayload` bytes carried by PING/PONG.

Modelled from the spec: the `PingPayload` struct is declared in code of
this repository that is not under src/; per §4.1 it is 8 bytes, a u64
`timestamp_us`, little-endian. -/
def ping_payload (timestamp_us : Nat) : List Nat :=
  le64 (timestamp_us % 2 ^ 64)

/-! ## VideoEncoder (encode/video_encoder.cpp) and the adaptive-bitrate
loop of HostSession (app/host_session.cpp) -/

/-- The encoder fields relevant to `set_bitrate`: dimensions, frame
rate, bitrate, the `initialized_` flag (`inited` here) and the
`force_keyframe_` atomic. -/
structure VideoEncoder where
  inited : Bool := false
  width : Nat := 0
  height : Nat := 0
  fps : Nat := 0
  bitrate : Nat := 0
  force_keyframe : Bool := false
deriving DecidableEq, Repr

/-- `VideoEncoder::request_keyframe`. -/
def VideoEncoder.request_keyframe (e : VideoEncoder) : VideoEncoder :=
  { e with force_keyframe := true }

/-- `VideoEncoder::init`: stores dimensions/fps/bitrate up front; `ok`
abstracts whether the codec opens (FFmpeg calls).  On failure the
`initialized_` flag is left as it was (the failure paths return before
setting it). -/
def VideoEncoder.init (e : VideoEncoder) (w h fps bitrate : Nat)
    (ok : Bool) : Bool × VideoEncoder :=
  let e1 := { e with width := w, height := h, fps := fps, bitrate := bitrate }
  if ok then (true, { e1 with inited := true }) else (false, e1)

/-- `VideoEncoder::shutdown`: release contexts and clear the flag. -/
def VideoEncoder.shutdown (e : VideoEncoder) : VideoEncoder :=
  if e.inited then { e with inited := false } else e

/-- `VideoEncoder::set_bitrate`: no-op at the current bitrate, failure
when uninitialized, otherwise tear down and re-init preserving
dimensions and fps, requesting a fresh keyframe on success. -/
def VideoEncoder.set_bitrate (e : VideoEncoder) (bitrate : Nat)
    (initOk : Bool) : Bool × VideoEncoder :=
  if bitrate = e.bitrate then (true, e)
  else if !e.inited then (false, e)
  else
    let r := (e.shutdown).init e.width e.height e.fps bitrate initOk
    if r.1 then (true, r.2.request_keyframe) else (false, r.2)

/-- The HostSession fields read and written by
`check_adaptive_bitrate`. -/
structure HostSession where
  target_bitrate : Nat := 6000000
  current_bitrate : Nat := 6000000
  encoder : VideoEncoder := {}
  last_bitrate_check : Nat := 0
deriving DecidableEq, Repr

/-- The bitrate ladder of `check_adaptive_bitrate`, in u32 arithmetic
(`target_bitrate_ * 3 / 4` multiplies before dividing, wrapping mod
2^32). -/
def desiredBitrate (rtt : Rat) (target : Nat) : Nat :=
  if 100 < rtt then target / 2
  else if 50 < rtt then target * 3 % 2 ^ 32 / 4
  else target

/-- `HostSession::check_adaptive_bitrate`.  `now_ms` is the steady
clock in milliseconds; `client_count` and `rtt` stand for
`server_->client_count()` and `server_->max_rtt_ms()`; `initOk`
abstracts whether the encoder re-init succeeds. -/
def HostSession.check_adaptive_bitrate (hs : HostSession) (now_ms : Nat)
    (client_count : Nat) (rtt : Rat) (initOk : Bool) : HostSession :=
  if now_ms - hs.last_bitrate_check < 5000 then hs
  else
    let hs1 := { hs with last_bitrate_check := now_ms }
    if client_count = 0 then hs1
    else if rtt ≤ 0 then hs1
    else
      let desired := desiredBitrate rtt hs1.target_bitrate
      if desired = hs1.current_bitrate then hs1
      else
        let r := hs1.encoder.set_bitrate desired initOk
        if r.1 then
          { hs1 with encoder := r.2, current_bitrate := desired }
        else { hs1 with encoder := r.2 }

/-! Proof infrastructure for the fragment/reassemble round trip:
the image of a packet after reassembly, and the assembler state after
receiving an arbitrary subset of a packet's fragments. -/

/-- The packet emitted after a full fragment/reassemble round trip:
same bytes, same type, same frame id, timestamp narrowed to its low 32
bits (zero-extended back to 64). -/
def reassembled (P : EncodedPacket) : EncodedPacket :=
  { data := P.data
    type := P.type
    pts_us := ((P.pts_us % (2 ^ 32 : Int)).toNat : Int)
    frame_id := P.frame_id }

/-- The reassembly key shared by every fragment of `P`. -/
def pKey (P : EncodedPacket) : FrameKey := (P.frame_id, P.type.packetType)

/-- The pending `FrameState` after receiving exactly the fragments of
`P` whose indices lie in `J`, with accumulated flags `fl`. -/
def pState (P : EncodedPacket) (now : Nat) (J : Finset Nat) (fl : Nat) :
    FrameState :=
  { frame_id := P.frame_id
    frag_total := numFrags P.data.length
    frags_received := J.card
    type := P.type.packetType
    flags := fl
    timestamp_us := (P.pts_us % (2 ^ 32 : Int)).toNat
    fragments := (List.range (numFrags P.data.length)).map fun i =>
      if i ∈ J then fragPayload P.data i else []
    created := now
    nack_sent := false }

/-- The assembler holding exactly the partial reassembly of `P` for
index set `J` (fresh when `J` is empty). -/
def asmOf (P : EncodedPacket) (now : Nat) (J : Finset Nat) (fl : Nat) :
    PacketAssembler :=
  if J = ∅ then ⟨[]⟩ else ⟨[(pKey P, pState P now J fl)]⟩

/-- Number of datagrams of wire type `t` (byte 2 of the 16-byte header)
sent to `dest` among a list of actions. -/
def sentOfType (t : Nat) (dest : Endpoint) (acts : List ServerAction) : Nat :=
  (acts.filter fun a =>
    match a with
    | ServerAction.send data d => d == dest && data.getD 2 0 == t
    | _ => false).length

/-! ## Concrete inputs used by counterexamples and witnesses -/

def epA : Endpoint := { ip := "a", port := 1 }

def epB : Endpoint := { ip := "b", port := 2 }

/-- S1-style packet: five bytes, P-frame. -/
def P1ex : EncodedPacket :=
  { data := [0, 1, 2, 3, 4], type := FrameType.VideoPFrame,
    pts_us := 100000, frame_id := 1 }

/-- Single-byte packet (one fragment). -/
def P0ex : EncodedPacket :=
  { data := [7], type := FrameType.VideoPFrame, pts_us := 0, frame_id := 1 }

/-- Audio packet with a presentation timestamp of at least 2^32 µs. -/
def P9ex : EncodedPacket :=
  { data := [1], type := FrameType.Audio, pts_us := 2 ^ 32 + 5, frame_id := 2 }

/-- A valid fragment whose `frag_idx` exceeds its `frag_total`. -/
def pkt10 : Packet :=
  { header := { magic := 0xAA, version := 1, type := AUDIO_DATA,
                frame_id := 3, frag_idx := 7, frag_total := 3 }
    payload := [1] }

/-- A valid single-fragment AUDIO_DATA datagram. -/
def audioPkt : Packet :=
  { header := { magic := 0xAA, version := 1, type := AUDIO_DATA,
                frame_id := 1, frag_idx := 0, frag_total := 1 }
    payload := [5] }

/-- A server with one connected peer and no RTT measured yet. -/
def oneClientState : ServerState := { clients := [{ endpoint := epA }] }

/-- A server with a three-fragment keyframe (frame 7) in the cache. -/
def nackState : ServerState :=
  { last_keyframe :=
      { frame_id := 7
        fragments := [{ payload := [1] }, { payload := [2] }, { payload := [3] }] } }

/-- A server whose stream config carries codec extradata. -/
def c5state : ServerState := { config := { codec_data := [9, 9] } }

/-- A host session at 6 Mbps with an initialized 1280x720@30 encoder. -/
def c8Session : HostSession :=
  { target_bitrate := 6000000, current_bitrate := 6000000,
    encoder := { inited := true, width := 1280, height := 720,
                 fps := 30, bitrate := 6000000 } }

/-- A host session after a step-down: target 6 Mbps but the encoder
currently running at 3 Mbps (as left by a previous RTT > 100 ms
evaluation). -/
def c8ReducedSession : HostSession :=
  { target_bitrate := 6000000, current_bitrate := 3000000,
    encoder := { inited := true, width := 1280, height := 720,
                 fps := 30, bitrate := 3000000 } }

/-! ## C2: push after close (core/thread_safe_queue.h) -/

/-- C2 counterexample: on a fresh closed queue, `push 5` enqueues the
item and `try_pop` returns it, contradicting the claim that a closed
queue never accepts new items and that such a push leaves the content
unchanged. -/
theorem C2_counterexample :
    (((({} : ThreadSafeQueue Nat).close).push 5).try_pop).1 = some 5 ∧
      ((({} : ThreadSafeQueue Nat).close).push 5).queue ≠
        (({} : ThreadSafeQueue Nat).close).queue := by
  constructor
  · rfl
  · decide

/-- C2 (amended): `close()` only sets the closed flag; a subsequent
`push` enqueues the item exactly as it would on an open queue (evicting
the oldest element when at capacity), and the pushed item is in the
queue, reachable by `try_pop`/`wait_pop`. -/
theorem C2_push_after_close {α : Type} (q : ThreadSafeQueue α) (x : α) :
    ((q.close).push x).queue = (q.push x).queue ∧
      x ∈ ((q.close).push x).queue := by
  refine ⟨rfl, ?_⟩
  simp [ThreadSafeQueue.push, ThreadSafeQueue.close]

/-! ## C3: VIDEO_DATA / AUDIO_DATA at the host (net/server.cpp) -/

/-- C3: a valid AUDIO_DATA datagram arriving at `Server::poll` falls
into the switch's `default` case: the state (including the
client-upstream reassembler) is unchanged and no action — in particular
no client-audio callback — is produced, although server.h declares
`client_audio_assembler_` and the host session registers the callback
and a full decode/playback pipeline for it. -/
theorem C3_audio_data_dropped :
    Server.dispatch oneClientState audioPkt epA 0 = (oneClientState, []) := by
  rfl

/-! ## C10: rejection with an unknown key still creates an entry
(net/packet_assembler.cpp) -/

/-- `findEntry k m = none` means no entry matches `k`. -/
theorem any_eq_false_of_findEntry_none {k : FrameKey}
    {m : List (FrameKey × FrameState)} (h : findEntry k m = none) :
    (m.any fun e => e.1 == k) = false := by
  induction m with
  | nil => rfl
  | cons e t ih =>
    cases he : (e.1 == k) with
    | false =>
      have ht : findEntry k t = none := by
        simpa [findEntry, List.find?, he] using h
      simp [he, ih ht]
    | true => exact absurd h (by simp [findEntry, List.find?, he])

/-- C10: feeding a valid fragment whose `frag_idx` is not below its
`frag_total` for a key with no pending entry returns no packet but
appends a fresh entry for that key (sized from the rejected fragment's
`frag_total`, with zero fragments received): the rejection mutates the
assembler. -/
theorem C10_reject_creates_entry (a : PacketAssembler) (p : Packet) (now : Nat)
    (hv : p.header.is_valid = true)
    (ht : p.header.frag_total ≠ 0)
    (hi : p.header.frag_total ≤ p.header.frag_idx)
    (habs : findEntry (p.header.frame_id, p.header.type) a.pending = none) :
    a.feed now p =
      (none, ⟨a.pending ++
        [((p.header.frame_id, p.header.type), initState p.header now)]⟩) ∧
      (initState p.header now).frags_received = 0 ∧
      (initState p.header now).fragments =
        List.replicate p.header.frag_total [] ∧
      (a.feed now p).2.pending.length = a.pending.length + 1 := by
  have hany := any_eq_false_of_findEntry_none habs
  have h1 : a.feed now p =
      (none, ⟨a.pending ++
        [((p.header.frame_id, p.header.type), initState p.header now)]⟩) := by
    simp only [PacketAssembler.feed, hv, habs, Option.getD_none]
    rw [if_neg (by simp), if_neg ht, if_pos (by simpa [initState] using hi)]
    simp [putEntry, hany]
  refine ⟨h1, rfl, rfl, ?_⟩
  rw [h1]
  simp

/-! ## C5 / C6: the HELLO handshake (net/server.cpp handle_hello,
send_stream_config) -/

/-- C5 counterexample: with empty codec extradata a fresh endpoint's
HELLO is answered by exactly one datagram (the WELCOME) and no
STREAM_CONFIG, contradicting the claim that every new endpoint receives
exactly one WELCOME and one STREAM_CONFIG. -/
theorem C5_counterexample :
    (({} : ServerState).clients = []) ∧
      (Server.handle_hello {} epA).2.length = 1 ∧
      sentOfType STREAM_CONFIG epA (Server.handle_hello {} epA).2 = 0 := by
  decide

/-- C5 (amended): a HELLO from an endpoint already in the peer table
sends nothing and changes nothing; a HELLO from a new endpoint appends
it to the peer table and sends exactly one WELCOME, followed by exactly
one STREAM_CONFIG when the configured codec extradata is non-empty and
by none when it is empty. -/
theorem C5_hello_handshake (s : ServerState) (source : Endpoint) :
    ((s.clients.any fun c => c.endpoint == source) = true →
      Server.handle_hello s source = (s, [])) ∧
    ((s.clients.any fun c => c.endpoint == source) = false →
      (Server.handle_hello s source).1.clients =
        s.clients ++ [{ endpoint := source }] ∧
      sentOfType WELCOME source (Server.handle_hello s source).2 = 1 ∧
      sentOfType STREAM_CONFIG source (Server.handle_hello s source).2 =
        (if s.config.codec_data = [] then 0 else 1)) := by
  constructor
  · intro h
    simp [Server.handle_hello, h]
  · intro h
    by_cases hc : s.config.codec_data = [] <;>
      simp [Server.handle_hello, h, Server.send_stream_config, hc, sentOfType,
        mkWelcomePacket, Packet.serialize, PacketHeader.to_network,
        welcomePayloadBytes, welcomeFieldBytes, le32, le16,
        WELCOME, STREAM_CONFIG]

/-- C5 witness: a new endpoint at a server with non-empty codec data. -/
theorem C5_hello_handshake_witness :
    ((c5state.clients.any fun c => c.endpoint == epA) = false) ∧
      ((Server.handle_hello c5state epA).1.clients =
          c5state.clients ++ [{ endpoint := epA }] ∧
        sentOfType WELCOME epA (Server.handle_hello c5state epA).2 = 1 ∧
        sentOfType STREAM_CONFIG epA (Server.handle_hello c5state epA).2 =
          (if c5state.config.codec_data = [] then 0 else 1)) :=
  ⟨by decide, (C5_hello_handshake c5state epA).2 (by decide)⟩

/-- C6 counterexample: the WelcomePayload fields occupy 22 bytes, not
20, and the payload actually carried by the WELCOME datagram is 24
bytes (`sizeof(WelcomePayload)` with natural alignment), not 20. -/
theorem C6_counterexample :
    (welcomeFieldBytes ({} : StreamConfig)).length = 22 ∧
      (mkWelcomePacket ({} : StreamConfig) 0).payload.length = 24 ∧
      ¬ ((mkWelcomePacket ({} : StreamConfig) 0).payload.length = 20) := by
  decide

/-- C6 (amended): the WelcomePayload carries five u32 fields and one
u16 field, 22 bytes little-endian; the struct is not packed, so
`sizeof(WelcomePayload)` is 24 (two tail padding bytes), and the
WELCOME datagram sent in response to a HELLO carries a payload of
exactly 24 bytes (40 bytes on the wire with the 16-byte header). -/
theorem C6_welcome_payload_size (s : ServerState) (source : Endpoint)
    (hnew : (s.clients.any fun c => c.endpoint == source) = false) :
    sizeofWelcomePayload = 24 ∧
      (mkWelcomePacket s.config s.sequence).payload.length =
        sizeofWelcomePayload ∧
      (welcomeFieldBytes s.config).length = 22 ∧
      (Server.handle_hello s source).2.head? =
        some (ServerAction.send
          ((mkWelcomePacket s.config s.sequence).serialize) source) ∧
      ((mkWelcomePacket s.config s.sequence).serialize).length =
        HEADER_SIZE + 24 := by
  refine ⟨rfl, ?_, ?_, ?_, ?_⟩
  · simp [mkWelcomePacket, welcomePayloadBytes, welcomeFieldBytes, le32, le16,
      sizeofWelcomePayload]
  · simp [welcomeFieldBytes, le32, le16]
  · by_cases hc : s.config.codec_data = [] <;>
      simp [Server.handle_hello, hnew, Server.send_stream_config, hc]
  · simp [Packet.serialize, PacketHeader.to_network, mkWelcomePacket,
      welcomePayloadBytes, welcomeFieldBytes, le32, le16, HEADER_SIZE]

/-- C6 witness: a concrete new endpoint. -/
theorem C6_welcome_payload_size_witness :
    ((c5state.clients.any fun c => c.endpoint == epA) = false) ∧
      (mkWelcomePacket c5state.config c5state.sequence).payload.length =
        sizeofWelcomePayload :=
  ⟨by decide, (C6_welcome_payload_size c5state epA (by decide)).2.1⟩

/-! ## C7: PONG RTT sanity bounds (net/server.cpp handle_pong) -/

/-- Reading back a little-endian u64 recovers the value. -/
theorem readLE_le64 (x : Nat) (hx : x < 2 ^ 64) : readLE (le64 x) 0 8 = x := by
  have h8 : List.range 8 = [0, 1, 2, 3, 4, 5, 6, 7] := rfl
  rw [readLE, h8, le64]
  simp [List.foldl, List.getD]
  omega

/-- C7 counterexample: a PONG whose echoed timestamp equals the current
time (RTT exactly 0) is stored — `rtt_valid` becomes true — although
the claim says only 0 < rtt < 10 s is stored and everything else leaves
every peer record unchanged. -/
theorem C7_counterexample :
    (Server.handle_pong oneClientState (ping_payload 1000) epA 1000).clients =
      [{ endpoint := epA, rtt_ms := 0, rtt_valid := true }] ∧
      oneClientState.clients =
        [{ endpoint := epA, rtt_ms := 0, rtt_valid := false }] := by
  refine ⟨?_, rfl⟩
  rw [Server.handle_pong]
  rw [if_neg (by decide : ¬ (ping_payload 1000).length < 8)]
  rw [(by decide : readLE (ping_payload 1000) 0 8 = 1000)]
  rw [if_neg (by norm_num)]
  simp [oneClientState, updateFirst, epA]

/-- C7 (amended): the RTT of a PONG is stored on the first matching
peer if and only if 0 ≤ rtt ≤ 10000 ms (the code rejects only strictly
negative RTTs and RTTs strictly above 10 s; rtt = 0 and rtt = 10 s
exactly are accepted); out-of-bounds RTTs leave the state unchanged. -/
theorem C7_pong_rtt_bounds (s : ServerState) (source : Endpoint)
    (ts now_us : Nat) (hts : ts < 2 ^ 64) :
    (((now_us : Rat) - (ts : Rat)) / 1000 < 0 ∨
        10000 < ((now_us : Rat) - (ts : Rat)) / 1000 →
      Server.handle_pong s (ping_payload ts) source now_us = s) ∧
    (0 ≤ ((now_us : Rat) - (ts : Rat)) / 1000 ∧
        ((now_us : Rat) - (ts : Rat)) / 1000 ≤ 10000 →
      Server.handle_pong s (ping_payload ts) source now_us =
        { s with clients := updateFirst s.clients source (((now_us : Rat) - (ts : Rat)) / 1000) }) := by
  have hp : ping_payload ts = le64 ts := by
    rw [ping_payload, Nat.mod_eq_of_lt hts]
  have hr : readLE (ping_payload ts) 0 8 = ts := by
    rw [hp]; exact readLE_le64 ts hts
  have hlen : (ping_payload ts).length = 8 := by rw [hp]; rfl
  have key : Server.handle_pong s (ping_payload ts) source now_us =
      (if ((now_us : Rat) - (ts : Rat)) / 1000 < 0 ∨
          10000 < ((now_us : Rat) - (ts : Rat)) / 1000 then s
       else { s with clients := updateFirst s.clients source (((now_us : Rat) - (ts : Rat)) / 1000) }) := by
    rw [Server.handle_pong]
    rw [if_neg (by omega : ¬ (ping_payload ts).length < 8)]
    rw [hr]
  constructor
  · intro hb
    rw [key, if_pos hb]
  · intro hb
    rw [key, if_neg (not_or.mpr ⟨not_lt.2 hb.1, not_lt.2 hb.2⟩)]

/-- C7 witness: RTT exactly 0 is within the accepted bounds. -/
theorem C7_pong_rtt_bounds_witness :
    (0 ≤ ((1000 : Rat) - ((1000 : Nat) : Rat)) / 1000 ∧
        ((1000 : Rat) - ((1000 : Nat) : Rat)) / 1000 ≤ 10000) ∧
      Server.handle_pong oneClientState (ping_payload 1000) epA 1000 =
        { oneClientState with clients := updateFirst oneClientState.clients epA ((((1000 : Nat) : Rat) - ((1000 : Nat) : Rat)) / 1000) } := by
  refine ⟨⟨by norm_num, by norm_num⟩, ?_⟩
  exact (C7_pong_rtt_bounds oneClientState epA 1000 1000 (by norm_num)).2
    ⟨by norm_num, by norm_num⟩

/-! ## C8: adaptive bitrate (app/host_session.cpp, video_encoder.cpp) -/

/-- C8 counterexample: with a previously halved bitrate (current 3 Mbps,
target 6 Mbps) and `max_rtt_ms() = 0` — one connected but not yet
measured peer — the claim's ladder gives desired = target ≠ current and
demands a reconfiguration to the target with a fresh keyframe, but
`check_adaptive_bitrate` returns at its `rtt <= 0` gate: only the check
timestamp changes, the bitrate stays reduced and no keyframe is
requested. -/
theorem C8_counterexample :
    c8ReducedSession.check_adaptive_bitrate 5000 1 0 true =
        { c8ReducedSession with last_bitrate_check := 5000 } ∧
      (c8ReducedSession.check_adaptive_bitrate 5000 1 0
          true).current_bitrate ≠ c8ReducedSession.target_bitrate ∧
      (c8ReducedSession.check_adaptive_bitrate 5000 1 0
          true).encoder.force_keyframe = false ∧
      (c8ReducedSession.check_adaptive_bitrate 5000 1 0
          true).encoder.bitrate = 3000000 := by
  have h : c8ReducedSession.check_adaptive_bitrate 5000 1 0 true =
      { c8ReducedSession with last_bitrate_check := 5000 } := by
    simp only [HostSession.check_adaptive_bitrate]
    rw [if_neg (by decide :
      ¬ 5000 - c8ReducedSession.last_bitrate_check < 5000)]
    rw [if_neg (by decide : ¬ (1 = 0))]
    rw [if_pos (by norm_num : (0 : Rat) ≤ 0)]
  refine ⟨h, ?_, ?_, ?_⟩ <;> rw [h] <;> decide

/-- C8 (amended): on an adaptive-bitrate evaluation that passes the
code's gates — 5 s elapsed, at least one connected client, and
`max_rtt_ms()` strictly positive — the desired bitrate is target/2
above 100 ms, 3/4·target above 50 ms, and the full target otherwise;
whenever it differs from the current bitrate and the encoder re-init
succeeds, the encoder is reconfigured to it — preserving width, height
and fps — and a fresh keyframe is requested.  (When no client is
connected or no valid RTT exists, the evaluation returns early without
reconfiguring — the counterexample.) -/
theorem C8_adaptive_bitrate (hs : HostSession) (now_ms client_count : Nat)
    (rtt : Rat)
    (helapsed : 5000 ≤ now_ms - hs.last_bitrate_check)
    (hcc : client_count ≠ 0)
    (hrtt : 0 < rtt)
    (henc : hs.encoder.inited = true)
    (hsync : hs.encoder.bitrate = hs.current_bitrate)
    (hoverflow : hs.target_bitrate * 3 < 2 ^ 32) :
    desiredBitrate rtt hs.target_bitrate =
      (if 100 < rtt then hs.target_bitrate / 2
       else if 50 < rtt then hs.target_bitrate * 3 / 4
       else hs.target_bitrate) ∧
    (hs.check_adaptive_bitrate now_ms client_count rtt true).current_bitrate =
      desiredBitrate rtt hs.target_bitrate ∧
    (desiredBitrate rtt hs.target_bitrate ≠ hs.current_bitrate →
      (hs.check_adaptive_bitrate now_ms client_count rtt true).encoder =
        { inited := true
          width := hs.encoder.width
          height := hs.encoder.height
          fps := hs.encoder.fps
          bitrate := desiredBitrate rtt hs.target_bitrate
          force_keyframe := true }) := by
  have hdes : desiredBitrate rtt hs.target_bitrate =
      (if 100 < rtt then hs.target_bitrate / 2
       else if 50 < rtt then hs.target_bitrate * 3 / 4
       else hs.target_bitrate) := by
    rw [desiredBitrate, Nat.mod_eq_of_lt hoverflow]
  have hstep : hs.check_adaptive_bitrate now_ms client_count rtt true =
      (if desiredBitrate rtt hs.target_bitrate = hs.current_bitrate then
        { hs with last_bitrate_check := now_ms }
       else
        { hs with
          last_bitrate_check := now_ms
          current_bitrate := desiredBitrate rtt hs.target_bitrate
          encoder :=
            { inited := true
              width := hs.encoder.width
              height := hs.encoder.height
              fps := hs.encoder.fps
              bitrate := desiredBitrate rtt hs.target_bitrate
              force_keyframe := true } }) := by
    rw [HostSession.check_adaptive_bitrate,
      if_neg (by omega : ¬ now_ms - hs.last_bitrate_check < 5000)]
    simp only [hcc, if_neg hcc, if_neg (not_le.2 hrtt)]
    by_cases hd : desiredBitrate rtt hs.target_bitrate = hs.current_bitrate
    · simp [hd]
    · have hd2 : ¬ desiredBitrate rtt hs.target_bitrate = hs.encoder.bitrate := by
        rw [hsync]; exact hd
      simp [hd, VideoEncoder.set_bitrate, hd2, henc, VideoEncoder.shutdown,
        VideoEncoder.init, VideoEncoder.request_keyframe]
  refine ⟨hdes, ?_, ?_⟩
  · rw [hstep]
    by_cases hd : desiredBitrate rtt hs.target_bitrate = hs.current_bitrate
    · rw [if_pos hd]
      exact hd.symm
    · rw [if_neg hd]
  · intro hd
    rw [hstep, if_neg hd]

/-- C8 witness: one peer at 120 ms RTT halves a 6 Mbps target and
requests a keyframe. -/
theorem C8_adaptive_bitrate_witness :
    (5000 ≤ 5000 - c8Session.last_bitrate_check ∧ (0 : Rat) < 120 ∧
        c8Session.encoder.inited = true ∧
        c8Session.target_bitrate * 3 < 2 ^ 32) ∧
      (c8Session.check_adaptive_bitrate 5000 1 120 true).current_bitrate =
        desiredBitrate 120 c8Session.target_bitrate ∧
      (c8Session.check_adaptive_bitrate 5000 1 120 true).encoder =
        { inited := true
          width := c8Session.encoder.width
          height := c8Session.encoder.height
          fps := c8Session.encoder.fps
          bitrate := desiredBitrate 120 c8Session.target_bitrate
          force_keyframe := true } := by
  have h := C8_adaptive_bitrate c8Session 5000 1 120 (by decide)
    (by decide) (by norm_num) rfl rfl (by decide)
  exact ⟨⟨by decide, by norm_num, rfl, by decide⟩, h.2.1, h.2.2 (by decide)⟩

/-- C10 witness: a fragment with `frag_idx = 7 ≥ frag_total = 3` fed to
an empty assembler grows the pending map. -/
theorem C10_reject_creates_entry_witness :
    (pkt10.header.is_valid = true ∧ pkt10.header.frag_total ≠ 0 ∧
        pkt10.header.frag_total ≤ pkt10.header.frag_idx) ∧
      ((⟨[]⟩ : PacketAssembler).feed 5 pkt10).2.pending.length =
        (⟨[]⟩ : PacketAssembler).pending.length + 1 :=
  ⟨⟨by decide, by decide, by decide⟩,
    (C10_reject_creates_entry ⟨[]⟩ pkt10 5 (by decide) (by decide) (by decide)
      rfl).2.2.2⟩

/-! ## C4: NACK servicing (net/server.cpp handle_nack, net/client.cpp
send_nack) -/

/-- Two little-endian bytes read as a 16-bit value. -/
theorem readLE_two (b : List Nat) (off : Nat) :
    readLE b off 2 = b.getD off 0 + b.getD (off + 1) 0 * 256 := by
  have h2 : List.range 2 = [0, 1] := rfl
  rw [readLE, h2]
  simp [List.foldl]

/-- Reading back the first le16 of a byte sequence. -/
theorem readLE_le16_cons (x : Nat) (rest : List Nat) :
    readLE (le16 x ++ rest) 0 2 = x % 2 ^ 16 := by
  rw [readLE_two]
  simp only [le16]
  have h16 : (2 : Nat) ^ 16 = 65536 := by norm_num
  rw [h16]
  simp only [List.cons_append, List.getD_cons_zero, List.getD_cons_succ]
  omega

/-- Reading past a prefix. -/
theorem readLE_append (a b : List Nat) (off len : Nat) :
    readLE (a ++ b) (a.length + off) len = readLE b off len := by
  rw [readLE, readLE]
  apply List.foldl_ext
  intro acc i _
  have h1 : a.length ≤ a.length + off + i := by omega
  rw [List.getD_append_right a b 0 (a.length + off + i) h1]
  have h2 : a.length + off + i - a.length = off + i := by omega
  rw [h2]

/-- Reading the i-th le16 out of a flattened list of le16s. -/
theorem readLE_flatten_le16 (l : List Nat) (i : Nat) (hi : i < l.length) :
    readLE ((l.map fun x => le16 (x % 2 ^ 16)).flatten) (2 * i) 2 =
      l.getD i 0 % 2 ^ 16 := by
  induction l generalizing i with
  | nil => simp at hi
  | cons x t ih =>
    cases i with
    | zero =>
      have hfl : ((x :: t).map fun y => le16 (y % 2 ^ 16)).flatten =
          le16 (x % 2 ^ 16) ++ (t.map fun y => le16 (y % 2 ^ 16)).flatten := by
        simp
      rw [hfl]
      have h0 : 2 * 0 = 0 := rfl
      rw [h0, readLE_le16_cons]
      exact Nat.mod_mod_of_dvd _ dvd_rfl
    | succ j =>
      have hfl : ((x :: t).map fun y => le16 (y % 2 ^ 16)).flatten =
          le16 (x % 2 ^ 16) ++ (t.map fun y => le16 (y % 2 ^ 16)).flatten := by
        simp
      have hlen : (le16 (x % 2 ^ 16)).length = 2 := rfl
      have harith : 2 * (j + 1) = (le16 (x % 2 ^ 16)).length + 2 * j := by
        rw [hlen]; omega
      rw [hfl, harith, readLE_append]
      have ht : j < t.length := by
        simpa using Nat.lt_of_succ_lt_succ hi
      rw [ih j ht]
      simp [List.getD_cons_succ]

/-- Total byte length of a flattened list of le16s. -/
theorem flatten_le16_length (l : List Nat) :
    ((l.map fun x => le16 (x % 2 ^ 16)).flatten).length = 2 * l.length := by
  induction l with
  | nil => rfl
  | cons x t ih =>
    have h2 : (le16 (x % 2 ^ 16)).length = 2 := rfl
    rw [List.map_cons, List.flatten_cons, List.length_append, ih, h2,
      List.length_cons]
    omega

/-- Reading every position of a list through `getD` reproduces it. -/
theorem map_getD_range {α : Type} (d : α) (l : List α) :
    (List.range l.length).map (fun i => l.getD i d) = l := by
  apply List.ext_getElem
  · simp
  · intro i h1 h2
    simp [List.getD_eq_getElem?_getD, List.getElem?_eq_getElem h2]

/-- filterMap of a guarded some is map over filter. -/
theorem filterMap_guard {α β : Type} (l : List α) (p : α → Prop)
    [DecidablePred p] (f : α → β) :
    (l.filterMap fun x => if p x then some (f x) else none) =
      (l.filter fun x => decide (p x)).map f := by
  induction l with
  | nil => rfl
  | cons x t ih =>
    by_cases hx : p x <;> simp [hx, ih]

/-- C4: a NACK built by the client for frame `fid` with the given
missing indices causes the host to resend exactly the cached keyframe
fragments at the requested in-range indices to the NACK's source when
`fid` matches the cached keyframe, and nothing otherwise; the server
state is unchanged in both cases. -/
theorem C4_nack_retransmit (s : ServerState) (source : Endpoint) (fid : Nat)
    (missing : List Nat)
    (hfid : fid < 2 ^ 16) (hnum : missing.length < 2 ^ 16)
    (hm : ∀ i ∈ missing, i < 2 ^ 16) :
    (fid = s.last_keyframe.frame_id →
      Server.handle_nack s (Client.nack_payload fid missing) source =
        (s, (missing.filter fun i =>
              decide (i < s.last_keyframe.fragments.length)).map fun i =>
            ServerAction.send
              ((s.last_keyframe.fragments.getD i ({} : Packet)).serialize)
              source)) ∧
    (fid ≠ s.last_keyframe.frame_id →
      Server.handle_nack s (Client.nack_payload fid missing) source =
        (s, [])) := by
  have hpl : Client.nack_payload fid missing =
      le16 fid ++ (le16 (missing.length % 2 ^ 16) ++
        (missing.map fun i => le16 (i % 2 ^ 16)).flatten) := by
    rw [Client.nack_payload, Nat.mod_eq_of_lt hfid]
    simp [List.append_assoc]
  have hplen : (Client.nack_payload fid missing).length =
      4 + 2 * missing.length := by
    have e1 : (le16 fid).length = 2 := rfl
    have e2 : (le16 (missing.length % 2 ^ 16)).length = 2 := rfl
    rw [hpl, List.length_append, List.length_append, flatten_le16_length,
      e1, e2]
    omega
  have hr0 : readLE (Client.nack_payload fid missing) 0 2 = fid := by
    rw [hpl, readLE_le16_cons, Nat.mod_eq_of_lt hfid]
  have hr2 : readLE (Client.nack_payload fid missing) 2 2 =
      missing.length := by
    have ha := readLE_append (le16 fid)
      (le16 (missing.length % 2 ^ 16) ++
        (missing.map fun i => le16 (i % 2 ^ 16)).flatten) 0 2
    have e1 : (le16 fid).length + 0 = 2 := rfl
    rw [e1] at ha
    rw [hpl, ha, readLE_le16_cons, Nat.mod_mod_of_dvd _ dvd_rfl,
      Nat.mod_eq_of_lt hnum]
  have hri : ∀ i < missing.length,
      readLE (Client.nack_payload fid missing) (4 + 2 * i) 2 =
        missing.getD i 0 := by
    intro i hi
    have ha := readLE_append (le16 fid)
      (le16 (missing.length % 2 ^ 16) ++
        (missing.map fun i => le16 (i % 2 ^ 16)).flatten) (2 + 2 * i) 2
    have hb := readLE_append (le16 (missing.length % 2 ^ 16))
      ((missing.map fun i => le16 (i % 2 ^ 16)).flatten) (2 * i) 2
    have e1 : (le16 fid).length + (2 + 2 * i) = 4 + 2 * i := by
      have : (le16 fid).length = 2 := rfl
      omega
    have e2 : (le16 (missing.length % 2 ^ 16)).length + 2 * i = 2 + 2 * i := by
      have : (le16 (missing.length % 2 ^ 16)).length = 2 := rfl
      omega
    rw [e1] at ha
    rw [e2] at hb
    rw [hpl, ha, hb, readLE_flatten_le16 missing i hi]
    have hmem : missing.getD i 0 ∈ missing := by
      rw [List.getD_eq_getElem missing 0 hi]
      exact List.getElem_mem hi
    exact Nat.mod_eq_of_lt (hm _ hmem)
  have hidxs : (List.range (min (readLE (Client.nack_payload fid missing) 2 2)
        (((Client.nack_payload fid missing).length - 4) / 2))).map
        (fun i => readLE (Client.nack_payload fid missing) (4 + 2 * i) 2) =
      missing := by
    rw [hr2, hplen]
    have hmin : min missing.length ((4 + 2 * missing.length - 4) / 2) =
        missing.length := by omega
    rw [hmin]
    calc (List.range missing.length).map
          (fun i => readLE (Client.nack_payload fid missing) (4 + 2 * i) 2)
        = (List.range missing.length).map (fun i => missing.getD i 0) := by
          apply List.map_congr_left
          intro i hi
          exact hri i (by simpa using hi)
      _ = missing := map_getD_range 0 missing
  constructor
  · intro heq
    simp only [Server.handle_nack]
    rw [if_neg (by omega : ¬ (Client.nack_payload fid missing).length < 4)]
    rw [hr0, if_neg (fun h => h heq)]
    rw [hidxs]
    rw [filterMap_guard missing
      (fun idx => idx < s.last_keyframe.fragments.length)]
  · intro hne
    simp only [Server.handle_nack]
    rw [if_neg (by omega : ¬ (Client.nack_payload fid missing).length < 4)]
    rw [hr0, if_pos hne]

/-- C4 witness: cached keyframe 7 with three fragments; a NACK for
frame 7 asking for indices 2 and 9 resends only fragment 2. -/
theorem C4_nack_retransmit_witness :
    ((7 : Nat) < 2 ^ 16 ∧ [2, 9].length < 2 ^ 16 ∧
        (7 : Nat) = nackState.last_keyframe.frame_id) ∧
      Server.handle_nack nackState (Client.nack_payload 7 [2, 9]) epB =
        (nackState, ([2, 9].filter fun i =>
            decide (i < nackState.last_keyframe.fragments.length)).map fun i =>
          ServerAction.send
            ((nackState.last_keyframe.fragments.getD i ({} : Packet)).serialize)
            epB) :=
  ⟨⟨by decide, by decide, by decide⟩,
    (C4_nack_retransmit nackState epB 7 [2, 9] (by decide) (by decide)
      (by decide)).1 (by decide)⟩

/-! ## C1 / C9: the fragment/reassemble round trip -/

theorem numFrags_eq (len : Nat) : numFrags len = (len + 1183) / 1184 := rfl

theorem numFrags_pos {len : Nat} (h : len ≠ 0) : 0 < numFrags len := by
  rw [numFrags_eq]; omega

theorem lt_of_lt_numFrags {j len : Nat} (hj : j < numFrags len) :
    j * 1184 < len := by
  rw [numFrags_eq] at hj; omega

theorem numFrags_le_255 {len : Nat} (h : len ≤ 255 * 1184) :
    numFrags len ≤ 255 := by
  rw [numFrags_eq]; omega

theorem MAX_FRAGMENT_DATA_eq : MAX_FRAGMENT_DATA = 1184 := rfl

theorem fragPayload_length (d : List Nat) (j : Nat) :
    (fragPayload d j).length = min 1184 (d.length - j * 1184) := by
  simp [fragPayload, MAX_FRAGMENT_DATA_eq]

theorem fragPayload_ne_nil {d : List Nat} {j : Nat}
    (hj : j < numFrags d.length) : fragPayload d j ≠ [] := by
  have h1 : j * 1184 < d.length := lt_of_lt_numFrags hj
  rw [← List.length_pos]
  rw [fragPayload_length]
  omega

/-- Concatenating all fragment payloads reproduces the data (with fuel
on the length). -/
theorem flatten_fragPayload_aux :
    ∀ (k : Nat) (d : List Nat), d.length ≤ 1184 * k →
      ((List.range (numFrags d.length)).map (fragPayload d)).flatten = d := by
  intro k
  induction k with
  | zero =>
    intro d hd
    have hnil : d = [] := List.eq_nil_of_length_eq_zero (by omega)
    subst hnil
    rfl
  | succ k ih =>
    intro d hd
    by_cases hlen : d.length ≤ 1184
    · by_cases h0 : d.length = 0
      · have hnil : d = [] := List.eq_nil_of_length_eq_zero h0
        subst hnil
        rfl
      · have hn : numFrags d.length = 1 := by rw [numFrags_eq]; omega
        rw [hn]
        have hr1 : List.range 1 = [0] := rfl
        rw [hr1, List.map_cons, List.map_nil, List.flatten_cons,
          List.flatten_nil, List.append_nil]
        show (d.drop (0 * MAX_FRAGMENT_DATA)).take MAX_FRAGMENT_DATA = d
        rw [Nat.zero_mul, List.drop_zero]
        exact List.take_of_length_le (by rw [MAX_FRAGMENT_DATA_eq]; omega)
    · have hlen2 : (d.drop 1184).length ≤ 1184 * k := by
        rw [List.length_drop]; omega
      have ih2 := ih (d.drop 1184) hlen2
      have hn : numFrags d.length = numFrags (d.drop 1184).length + 1 := by
        rw [numFrags_eq, numFrags_eq, List.length_drop]; omega
      rw [hn, List.range_succ_eq_map, List.map_cons, List.map_map,
        List.flatten_cons]
      have h0 : fragPayload d 0 = d.take 1184 := by
        simp [fragPayload, MAX_FRAGMENT_DATA_eq]
      have hcongr : (List.range (numFrags (d.drop 1184).length)).map
            (fragPayload d ∘ Nat.succ) =
          (List.range (numFrags (d.drop 1184).length)).map
            (fragPayload (d.drop 1184)) := by
        apply List.map_congr_left
        intro i _
        show fragPayload d (i + 1) = fragPayload (d.drop 1184) i
        rw [fragPayload, fragPayload, List.drop_drop, MAX_FRAGMENT_DATA_eq]
        have harg : (i + 1) * 1184 = 1184 + i * 1184 := by ring
        rw [harg]
      rw [h0, hcongr, ih2, List.take_append_drop]

/-- Concatenating all fragment payloads reproduces the data. -/
theorem flatten_fragPayload (d : List Nat) :
    ((List.range (numFrags d.length)).map (fragPayload d)).flatten = d :=
  flatten_fragPayload_aux d.length d (by omega)

/-! Projections of a fragment packet. -/

theorem fragPacket_is_valid (P : EncodedPacket) (seq n j : Nat) :
    (fragPacket P seq n j).header.is_valid = true := rfl

theorem fragPacket_frag_total (P : EncodedPacket) (seq n j : Nat) :
    (fragPacket P seq n j).header.frag_total = n % 256 := rfl

theorem fragPacket_frag_idx (P : EncodedPacket) (seq n j : Nat) :
    (fragPacket P seq n j).header.frag_idx = j % 256 := rfl

theorem fragPacket_frame_id (P : EncodedPacket) (seq n j : Nat) :
    (fragPacket P seq n j).header.frame_id = P.frame_id := rfl

theorem fragPacket_type (P : EncodedPacket) (seq n j : Nat) :
    (fragPacket P seq n j).header.type = P.type.packetType := rfl

theorem fragPacket_timestamp (P : EncodedPacket) (seq n j : Nat) :
    (fragPacket P seq n j).header.timestamp_us =
      (P.pts_us % (2 ^ 32 : Int)).toNat := rfl

theorem fragPacket_payload (P : EncodedPacket) (seq n j : Nat) :
    (fragPacket P seq n j).payload = fragPayload P.data j := rfl

/-- Bit 0 of a fragment's flags is exactly the KEYFRAME bit. -/
theorem fragPacket_flags_bit (P : EncodedPacket) (seq n j : Nat) :
    ((fragPacket P seq n j).header.flags).testBit 0 =
      decide (P.type = FrameType.VideoKeyframe) := by
  have h : (fragPacket P seq n j).header.flags =
      P.type.keyflags ||| (if j = 0 then FLAG_FIRST else 0)
        ||| (if j = n - 1 then FLAG_LAST else 0) := rfl
  rw [h, Nat.testBit_lor, Nat.testBit_lor]
  have h2 : (if j = 0 then FLAG_FIRST else 0).testBit 0 = false := by
    split <;> decide
  have h3 : (if j = n - 1 then FLAG_LAST else 0).testBit 0 = false := by
    split <;> decide
  rw [h2, h3]
  cases P.type <;> simp [FrameType.keyflags, FLAG_KEYFRAME, FLAG_NONE]

/-! Association-list entry lemmas. -/

theorem findEntry_nil (k : FrameKey) : findEntry k [] = none := rfl

theorem findEntry_singleton (k : FrameKey) (st : FrameState) :
    findEntry k [(k, st)] = some st := by
  simp [findEntry]

theorem putEntry_nil (k : FrameKey) (v : FrameState) :
    putEntry k v [] = [(k, v)] := by
  simp [putEntry]

theorem putEntry_singleton (k : FrameKey) (v st : FrameState) :
    putEntry k v [(k, st)] = [(k, v)] := by
  simp [putEntry]

theorem eraseEntry_singleton (k : FrameKey) (st : FrameState) :
    eraseEntry k [(k, st)] = [] := by
  simp [eraseEntry]

/-! `pState` components. -/

theorem pState_frag_total (P : EncodedPacket) (now : Nat) (J : Finset Nat)
    (fl : Nat) : (pState P now J fl).frag_total = numFrags P.data.length :=
  rfl

theorem pState_frags_received (P : EncodedPacket) (now : Nat) (J : Finset Nat)
    (fl : Nat) : (pState P now J fl).frags_received = J.card := rfl

theorem pState_fragments_getD (P : EncodedPacket) (now : Nat) (J : Finset Nat)
    (fl : Nat) {j : Nat} (hj : j < numFrags P.data.length) :
    (pState P now J fl).fragments.getD j [] =
      (if j ∈ J then fragPayload P.data j else []) := by
  show ((List.range (numFrags P.data.length)).map fun i =>
      if i ∈ J then fragPayload P.data i else []).getD j [] = _
  rw [List.getD_eq_getElem _ _ (by simpa using hj)]
  simp [hj]

/-- Setting a slot of a mapped range. -/
theorem set_map_range {α : Type} (g : Nat → α) (n j : Nat) (v : α)
    (hj : j < n) :
    ((List.range n).map g).set j v =
      (List.range n).map fun i => if i = j then v else g i := by
  apply List.ext_getElem
  · simp
  · intro i h1 h2
    rw [List.getElem_set]
    rcases eq_or_ne j i with hji | hji
    · subst hji
      simp
    · rw [if_neg hji]
      have hi : i < n := by simpa using h2
      simp [hi, Ne.symm hji]

/-- Filling slot `j` moves the partial state from `J` to `insert j J`. -/
theorem pState_fragments_set (P : EncodedPacket) (now : Nat) (J : Finset Nat)
    (fl : Nat) {j : Nat} (hj : j < numFrags P.data.length) (hjJ : j ∉ J) :
    (pState P now J fl).fragments.set j (fragPayload P.data j) =
      (pState P now (insert j J) fl).fragments := by
  show ((List.range (numFrags P.data.length)).map fun i =>
      if i ∈ J then fragPayload P.data i else []).set j (fragPayload P.data j)
    = (List.range (numFrags P.data.length)).map fun i =>
        if i ∈ insert j J then fragPayload P.data i else []
  rw [set_map_range _ _ _ _ hj]
  apply List.map_congr_left
  intro i _
  rcases eq_or_ne i j with hij | hij
  · subst hij
    simp
  · simp [hij, Finset.mem_insert]

/-- The fresh entry built by `feed` for the first fragment is the
partial state for the empty index set. -/
theorem initState_eq_pState (P : EncodedPacket) (seq now : Nat) (j : Nat)
    (hn255 : numFrags P.data.length ≤ 255) :
    initState (fragPacket P seq (numFrags P.data.length) j).header now =
      pState P now ∅ ((fragPacket P seq (numFrags P.data.length) j).header.flags) := by
  have e256 : numFrags P.data.length % 256 = numFrags P.data.length :=
    Nat.mod_eq_of_lt (by omega)
  rw [initState, pState]
  simp only [fragPacket_frame_id, fragPacket_frag_total, fragPacket_type,
    fragPacket_timestamp, e256]
  have hfr : List.replicate (numFrags P.data.length) ([] : List Nat) =
      (List.range (numFrags P.data.length)).map fun i =>
        if i ∈ (∅ : Finset Nat) then fragPayload P.data i else [] := by
    apply List.ext_getElem
    · simp
    · intro i h1 h2
      simp
  rw [hfr]
  simp


theorem pState_flags (P : EncodedPacket) (now : Nat) (J : Finset Nat)
    (fl : Nat) : (pState P now J fl).flags = fl := rfl

theorem feed_step_dup (P : EncodedPacket) (seq now : Nat) (J : Finset Nat)
    (fl j : Nat)
    (hn255 : numFrags P.data.length ≤ 255)
    (hj : j < numFrags P.data.length)
    (hjJ : j ∈ J) :
    (PacketAssembler.mk [(pKey P, pState P now J fl)]).feed now
        (fragPacket P seq (numFrags P.data.length) j) =
      (none, ⟨[(pKey P, pState P now J fl)]⟩) := by
  have ej : j % 256 = j := Nat.mod_eq_of_lt (by omega)
  have en : numFrags P.data.length % 256 = numFrags P.data.length :=
    Nat.mod_eq_of_lt (by omega)
  simp only [PacketAssembler.feed, fragPacket_is_valid, Bool.not_true,
    Bool.false_eq_true, if_false, fragPacket_frag_total, fragPacket_frag_idx,
    fragPacket_frame_id, fragPacket_type, fragPacket_payload, en, ej]
  rw [if_neg (by omega : ¬ numFrags P.data.length = 0)]
  rw [show ((P.frame_id, P.type.packetType) : FrameKey) = pKey P from rfl]
  rw [findEntry_singleton, Option.getD_some]
  rw [if_neg (by rw [pState_frag_total]; omega :
    ¬ (pState P now J fl).frag_total ≤ j)]
  rw [pState_fragments_getD P now J fl hj, if_pos hjJ]
  rw [if_pos (fragPayload_ne_nil hj)]
  rw [putEntry_singleton]


theorem pState_created (P : EncodedPacket) (now : Nat) (J : Finset Nat)
    (fl : Nat) : (pState P now J fl).created = now := rfl

theorem pState_insert (P : EncodedPacket) (now : Nat) (J : Finset Nat)
    (fl flg j : Nat) (hj : j < numFrags P.data.length) (hjJ : j ∉ J) :
    ({ pState P now J fl with
        fragments := (pState P now J fl).fragments.set j (fragPayload P.data j)
        frags_received := (pState P now J fl).frags_received + 1
        flags := (pState P now J fl).flags ||| flg } : FrameState) =
      pState P now (insert j J) (fl ||| flg) := by
  rw [pState_fragments_set P now J fl hj hjJ, pState_frags_received,
    pState_flags]
  rw [show J.card + 1 = (insert j J).card from
    (Finset.card_insert_of_not_mem hjJ).symm]
  rfl

theorem feed_step_ins (P : EncodedPacket) (seq now : Nat) (J : Finset Nat)
    (fl j : Nat)
    (hn255 : numFrags P.data.length ≤ 255)
    (hj : j < numFrags P.data.length)
    (hjJ : j ∉ J)
    (hcard : J.card + 1 < numFrags P.data.length) :
    (PacketAssembler.mk [(pKey P, pState P now J fl)]).feed now
        (fragPacket P seq (numFrags P.data.length) j) =
      (none, ⟨[(pKey P, pState P now (insert j J)
        (fl ||| (fragPacket P seq (numFrags P.data.length) j).header.flags))]⟩) := by
  have ej : j % 256 = j := Nat.mod_eq_of_lt (by omega)
  have en : numFrags P.data.length % 256 = numFrags P.data.length :=
    Nat.mod_eq_of_lt (by omega)
  simp only [PacketAssembler.feed, fragPacket_is_valid, Bool.not_true,
    Bool.false_eq_true, if_false, fragPacket_frag_total, fragPacket_frag_idx,
    fragPacket_frame_id, fragPacket_type, fragPacket_payload, en, ej]
  rw [if_neg (by omega : ¬ numFrags P.data.length = 0)]
  rw [show ((P.frame_id, P.type.packetType) : FrameKey) = pKey P from rfl]
  rw [findEntry_singleton, Option.getD_some]
  rw [if_neg (by rw [pState_frag_total]; omega :
    ¬ (pState P now J fl).frag_total ≤ j)]
  rw [pState_fragments_getD P now J fl hj, if_neg hjJ]
  rw [if_neg (by simp : ¬ (([] : List Nat) ≠ []))]
  rw [pState_insert P now J fl _ j hj hjJ]
  rw [if_pos (by rw [pState_frags_received, pState_frag_total]; omega :
    (pState P now J fl).frags_received + 1 < (pState P now J fl).frag_total)]
  rw [putEntry_singleton]


theorem assembleResult_full (P : EncodedPacket) (now fl2 : Nat)
    (hbit : fl2.testBit 0 = decide (P.type = FrameType.VideoKeyframe)) :
    assembleResult
        (pState P now (Finset.range (numFrags P.data.length)) fl2) =
      reassembled P := by
  have hdata : (pState P now (Finset.range (numFrags P.data.length))
      fl2).fragments.flatten = P.data := by
    show ((List.range (numFrags P.data.length)).map fun i =>
        if i ∈ Finset.range (numFrags P.data.length) then fragPayload P.data i
        else []).flatten = P.data
    have hcg : ((List.range (numFrags P.data.length)).map fun i =>
        if i ∈ Finset.range (numFrags P.data.length) then fragPayload P.data i
        else []) = (List.range (numFrags P.data.length)).map
          (fragPayload P.data) := by
      apply List.map_congr_left
      intro i hi
      rw [if_pos (by simpa using hi)]
    rw [hcg, flatten_fragPayload]
  rw [assembleResult, reassembled]
  rw [hdata]
  have hmod : fl2 % 2 = if P.type = FrameType.VideoKeyframe then 1 else 0 := by
    rw [Nat.testBit_zero] at hbit
    by_cases hk : P.type = FrameType.VideoKeyframe
    · rw [if_pos hk]
      rw [hk] at hbit
      simp at hbit
      omega
    · rw [if_neg hk]
      rw [decide_eq_false hk] at hbit
      simp at hbit
      omega
  cases htype : P.type with
  | Audio =>
    rw [show (pState P now (Finset.range (numFrags P.data.length))
      fl2).type = P.type.packetType from rfl, htype]
    rfl
  | VideoKeyframe =>
    rw [show (pState P now (Finset.range (numFrags P.data.length))
      fl2).type = P.type.packetType from rfl, htype]
    rw [htype] at hmod
    simp only [FrameType.packetType]
    rw [if_neg (by decide : ¬ (VIDEO_DATA = AUDIO_DATA))]
    rw [if_pos (by
      rw [show (pState P now (Finset.range (numFrags P.data.length))
        fl2).flags = fl2 from rfl, show FLAG_KEYFRAME = (1 : Nat) from rfl,
        Nat.and_one_is_mod]
      simp at hmod
      omega)]
    rfl
  | VideoPFrame =>
    rw [show (pState P now (Finset.range (numFrags P.data.length))
      fl2).type = P.type.packetType from rfl, htype]
    rw [htype] at hmod
    simp only [FrameType.packetType]
    rw [if_neg (by decide : ¬ (VIDEO_DATA = AUDIO_DATA))]
    rw [if_neg (by
      rw [show (pState P now (Finset.range (numFrags P.data.length))
        fl2).flags = fl2 from rfl, show FLAG_KEYFRAME = (1 : Nat) from rfl,
        Nat.and_one_is_mod]
      simp at hmod
      omega)]
    rfl


theorem feed_step_complete (P : EncodedPacket) (seq now : Nat)
    (J : Finset Nat) (fl j : Nat)
    (hn255 : numFrags P.data.length ≤ 255)
    (hj : j < numFrags P.data.length)
    (hjJ : j ∉ J)
    (hJsub : J ⊆ Finset.range (numFrags P.data.length))
    (hcard : J.card + 1 = numFrags P.data.length)
    (hbit : fl.testBit 0 = decide (P.type = FrameType.VideoKeyframe)) :
    (PacketAssembler.mk [(pKey P, pState P now J fl)]).feed now
        (fragPacket P seq (numFrags P.data.length) j) =
      (some (reassembled P), ⟨[]⟩) := by
  have ej : j % 256 = j := Nat.mod_eq_of_lt (by omega)
  have en : numFrags P.data.length % 256 = numFrags P.data.length :=
    Nat.mod_eq_of_lt (by omega)
  have hins : insert j J = Finset.range (numFrags P.data.length) := by
    apply Finset.eq_of_subset_of_card_le
    · intro x hx
      rcases Finset.mem_insert.1 hx with hx1 | hx2
      · subst hx1
        exact Finset.mem_range.2 hj
      · exact hJsub hx2
    · rw [Finset.card_range, Finset.card_insert_of_not_mem hjJ]
      omega
  have hbit2 : (fl ||| (fragPacket P seq (numFrags P.data.length)
      j).header.flags).testBit 0 =
      decide (P.type = FrameType.VideoKeyframe) := by
    rw [Nat.testBit_lor, fragPacket_flags_bit, hbit, Bool.or_self]
  simp only [PacketAssembler.feed, fragPacket_is_valid, Bool.not_true,
    Bool.false_eq_true, if_false, fragPacket_frag_total, fragPacket_frag_idx,
    fragPacket_frame_id, fragPacket_type, fragPacket_payload, en, ej]
  rw [if_neg (by omega : ¬ numFrags P.data.length = 0)]
  rw [show ((P.frame_id, P.type.packetType) : FrameKey) = pKey P from rfl]
  rw [findEntry_singleton, Option.getD_some]
  rw [if_neg (by rw [pState_frag_total]; omega :
    ¬ (pState P now J fl).frag_total ≤ j)]
  rw [pState_fragments_getD P now J fl hj, if_neg hjJ]
  rw [if_neg (by simp : ¬ (([] : List Nat) ≠ []))]
  rw [pState_insert P now J fl _ j hj hjJ]
  rw [if_neg (by rw [pState_frags_received, pState_frag_total]; omega :
    ¬ (pState P now J fl).frags_received + 1 < (pState P now J fl).frag_total)]
  rw [eraseEntry_singleton]
  rw [hins, assembleResult_full P now _ hbit2]

theorem feed_step_create (P : EncodedPacket) (seq now : Nat) (j : Nat)
    (hn255 : numFrags P.data.length ≤ 255)
    (hj : j < numFrags P.data.length)
    (hn1 : 1 < numFrags P.data.length) :
    (PacketAssembler.mk []).feed now
        (fragPacket P seq (numFrags P.data.length) j) =
      (none, ⟨[(pKey P, pState P now {j}
        ((fragPacket P seq (numFrags P.data.length) j).header.flags))]⟩) := by
  have ej : j % 256 = j := Nat.mod_eq_of_lt (by omega)
  have en : numFrags P.data.length % 256 = numFrags P.data.length :=
    Nat.mod_eq_of_lt (by omega)
  simp only [PacketAssembler.feed, fragPacket_is_valid, Bool.not_true,
    Bool.false_eq_true, if_false, fragPacket_frag_total, fragPacket_frag_idx,
    fragPacket_frame_id, fragPacket_type, fragPacket_payload, en, ej]
  rw [if_neg (by omega : ¬ numFrags P.data.length = 0)]
  rw [show ((P.frame_id, P.type.packetType) : FrameKey) = pKey P from rfl]
  rw [findEntry_nil]
  rw [show (none : Option FrameState).getD
    (initState (fragPacket P seq (numFrags P.data.length) j).header now) =
    initState (fragPacket P seq (numFrags P.data.length) j).header now
    from rfl]
  rw [initState_eq_pState P seq now j hn255]
  rw [if_neg (by rw [pState_frag_total]; omega :
    ¬ (pState P now ∅ ((fragPacket P seq (numFrags P.data.length)
      j).header.flags)).frag_total ≤ j)]
  rw [pState_fragments_getD P now ∅ _ hj,
    if_neg (Finset.not_mem_empty j)]
  rw [if_neg (by simp : ¬ (([] : List Nat) ≠ []))]
  rw [pState_insert P now ∅ _ _ j hj (Finset.not_mem_empty j)]
  rw [if_pos (by rw [pState_frags_received, pState_frag_total]; simp; omega :
    (pState P now ∅ ((fragPacket P seq (numFrags P.data.length)
      j).header.flags)).frags_received + 1 <
      (pState P now ∅ ((fragPacket P seq (numFrags P.data.length)
        j).header.flags)).frag_total)]
  rw [putEntry_nil]
  rw [show insert j (∅ : Finset Nat) = {j} from rfl]
  rw [show ((fragPacket P seq (numFrags P.data.length) j).header.flags |||
      (fragPacket P seq (numFrags P.data.length) j).header.flags) =
    (fragPacket P seq (numFrags P.data.length) j).header.flags
    from by simp]

theorem feed_step_create_complete (P : EncodedPacket) (seq now : Nat)
    (hne : P.data ≠ [])
    (hn1 : numFrags P.data.length = 1) :
    (PacketAssembler.mk []).feed now
        (fragPacket P seq (numFrags P.data.length) 0) =
      (some (reassembled P), ⟨[]⟩) := by
  have hj : 0 < numFrags P.data.length := by omega
  have en : numFrags P.data.length % 256 = numFrags P.data.length :=
    Nat.mod_eq_of_lt (by omega)
  have hins : insert 0 (∅ : Finset Nat) =
      Finset.range (numFrags P.data.length) := by
    rw [hn1]
    rfl
  have hbit2 : (((fragPacket P seq (numFrags P.data.length) 0).header.flags) |||
      ((fragPacket P seq (numFrags P.data.length) 0).header.flags)).testBit 0 =
      decide (P.type = FrameType.VideoKeyframe) := by
    rw [Nat.testBit_lor, fragPacket_flags_bit, Bool.or_self]
  simp only [PacketAssembler.feed, fragPacket_is_valid, Bool.not_true,
    Bool.false_eq_true, if_false, fragPacket_frag_total, fragPacket_frag_idx,
    fragPacket_frame_id, fragPacket_type, fragPacket_payload, en,
    Nat.zero_mod]
  rw [if_neg (by omega : ¬ numFrags P.data.length = 0)]
  rw [show ((P.frame_id, P.type.packetType) : FrameKey) = pKey P from rfl]
  rw [findEntry_nil]
  rw [show (none : Option FrameState).getD
    (initState (fragPacket P seq (numFrags P.data.length) 0).header now) =
    initState (fragPacket P seq (numFrags P.data.length) 0).header now
    from rfl]
  rw [initState_eq_pState P seq now 0 (by omega)]
  rw [if_neg (by rw [pState_frag_total]; omega :
    ¬ (pState P now ∅ ((fragPacket P seq (numFrags P.data.length)
      0).header.flags)).frag_total ≤ 0)]
  rw [pState_fragments_getD P now ∅ _ hj,
    if_neg (Finset.not_mem_empty 0)]
  rw [if_neg (by simp : ¬ (([] : List Nat) ≠ []))]
  rw [pState_insert P now ∅ _ _ 0 hj (Finset.not_mem_empty 0)]
  rw [if_neg (by rw [pState_frags_received, pState_frag_total]; simp; omega :
    ¬ (pState P now ∅ ((fragPacket P seq (numFrags P.data.length)
      0).header.flags)).frags_received + 1 <
      (pState P now ∅ ((fragPacket P seq (numFrags P.data.length)
        0).header.flags)).frag_total)]
  rw [show eraseEntry (pKey P) ([] : List (FrameKey × FrameState)) = []
    from rfl]
  rw [hins, assembleResult_full P now _ hbit2]


theorem feedAll_snoc (a : PacketAssembler) (now : Nat) (M : List Packet)
    (p : Packet) :
    a.feedAll now (M ++ [p]) =
      ((a.feedAll now M).1 ++ ((a.feedAll now M).2.feed now p).1.toList,
       ((a.feedAll now M).2.feed now p).2) := by
  simp [PacketAssembler.feedAll, List.foldl_append]

/-- Feeding any multiset of fragments of `P` that does not yet cover
every index leaves one pending entry: the partial state for the set of
indices seen, with accumulated flags whose KEYFRAME bit matches the
frame type. -/
theorem feedAll_partial (P : EncodedPacket) (seq now : Nat)
    (hne : P.data ≠ [])
    (hn255 : numFrags P.data.length ≤ 255) :
    ∀ M : List Packet,
      (∀ p ∈ M, ∃ i, i < numFrags P.data.length ∧
        p = fragPacket P seq (numFrags P.data.length) i) →
      (M.map fun p => p.header.frag_idx).toFinset ≠
        Finset.range (numFrags P.data.length) →
      ∃ fl, fl.testBit 0 = decide (P.type = FrameType.VideoKeyframe) ∧
        (PacketAssembler.mk []).feedAll now M =
          ([], asmOf P now (M.map fun p => p.header.frag_idx).toFinset fl) := by
  intro M
  induction M using List.reverseRecOn with
  | nil =>
    intro hM hfull
    refine ⟨if P.type = FrameType.VideoKeyframe then 1 else 0, ?_, ?_⟩
    · split <;> simp [*]
    · rfl
  | append_singleton M p ih =>
    intro hM hfull
    obtain ⟨j, hj, hp⟩ := hM p (by simp)
    subst hp
    have ej : j % 256 = j := Nat.mod_eq_of_lt (by omega)
    have hidxp : (fragPacket P seq (numFrags P.data.length)
        j).header.frag_idx = j := by
      rw [fragPacket_frag_idx, ej]
    have hsubM : ∀ q ∈ M, q.header.frag_idx < numFrags P.data.length := by
      intro q hq
      obtain ⟨i, hi, hq2⟩ := hM q (by simp [hq])
      rw [hq2, fragPacket_frag_idx, Nat.mod_eq_of_lt (by omega)]
      exact hi
    have hJ'eq : ((M ++ [fragPacket P seq (numFrags P.data.length) j]).map fun q => q.header.frag_idx).toFinset =
        insert j ((M.map fun q => q.header.frag_idx).toFinset) := by
      rw [List.map_append, List.toFinset_append]
      simp [hidxp, Finset.union_comm, Finset.insert_eq]
    have hJ'sub : ((M ++ [fragPacket P seq (numFrags P.data.length) j]).map fun q => q.header.frag_idx).toFinset ⊆
        Finset.range (numFrags P.data.length) := by
      intro x hx
      rw [List.mem_toFinset, List.mem_map] at hx
      obtain ⟨q, hq, hq2⟩ := hx
      rcases List.mem_append.1 hq with hq3 | hq3
      · exact Finset.mem_range.2 (hq2 ▸ hsubM q hq3)
      · have hqp : q = fragPacket P seq (numFrags P.data.length) j := by
          simpa using hq3
        subst hqp
        rw [← hq2, hidxp]
        exact Finset.mem_range.2 hj
    have hJ'ssub : ((M ++ [fragPacket P seq (numFrags P.data.length) j]).map fun q => q.header.frag_idx).toFinset ⊂
        Finset.range (numFrags P.data.length) :=
      lt_of_le_of_ne hJ'sub hfull
    have hJsub : (M.map fun q => q.header.frag_idx).toFinset ⊆
        ((M ++ [fragPacket P seq (numFrags P.data.length) j]).map fun q => q.header.frag_idx).toFinset := by
      intro x hx
      rw [List.mem_toFinset] at hx
      rw [List.mem_toFinset, List.map_append, List.mem_append]
      exact Or.inl hx
    have hMfull : (M.map fun q => q.header.frag_idx).toFinset ≠
        Finset.range (numFrags P.data.length) := by
      intro hcon
      exact absurd (hcon ▸ hJsub) (by
        intro hsub
        exact absurd (Finset.Subset.antisymm hJ'sub hsub) hfull)
    obtain ⟨fl, hbit, heq⟩ := ih (fun q hq => hM q (by simp [hq])) hMfull
    rw [feedAll_snoc, heq]
    by_cases hJe : (M.map fun q => q.header.frag_idx).toFinset = ∅
    · -- creation: the assembler is still empty
      have hn1 : 1 < numFrags P.data.length := by
        rcases Nat.lt_or_ge 1 (numFrags P.data.length) with h | h
        · exact h
        · exfalso
          have hn0 : 0 < numFrags P.data.length := numFrags_pos (by
            simpa [List.length_eq_zero] using hne)
          have hne1 : numFrags P.data.length = 1 := by omega
          apply hfull
          rw [hJ'eq, hJe, hne1]
          have hj0 : j = 0 := by omega
          rw [hj0]
          rfl
      rw [show asmOf P now (M.map fun q => q.header.frag_idx).toFinset fl =
        ⟨[]⟩ from by rw [asmOf, if_pos hJe]]
      rw [feed_step_create P seq now j hn255 hj hn1]
      refine ⟨(fragPacket P seq (numFrags P.data.length) j).header.flags,
        fragPacket_flags_bit P seq (numFrags P.data.length) j, ?_⟩
      rw [hJ'eq, hJe]
      rw [show asmOf P now (insert j ∅) _ = ⟨[(pKey P, pState P now (insert j ∅)
        ((fragPacket P seq (numFrags P.data.length) j).header.flags))]⟩ from
        by rw [asmOf, if_neg (by simp)]]
      rfl
    · rw [show asmOf P now (M.map fun q => q.header.frag_idx).toFinset fl =
        ⟨[(pKey P, pState P now (M.map fun q => q.header.frag_idx).toFinset
          fl)]⟩ from by rw [asmOf, if_neg hJe]]
      by_cases hjJ : j ∈ (M.map fun q => q.header.frag_idx).toFinset
      · -- duplicate
        rw [feed_step_dup P seq now _ fl j hn255 hj hjJ]
        refine ⟨fl, hbit, ?_⟩
        rw [hJ'eq, Finset.insert_eq_self.2 hjJ]
        rw [show asmOf P now (M.map fun q => q.header.frag_idx).toFinset fl =
          ⟨[(pKey P, pState P now (M.map fun q => q.header.frag_idx).toFinset
            fl)]⟩ from by rw [asmOf, if_neg hJe]]
        rfl
      · -- new fragment, frame still incomplete
        have hcard : (M.map fun q => q.header.frag_idx).toFinset.card + 1 <
            numFrags P.data.length := by
          have h1 := Finset.card_lt_card hJ'ssub
          rw [Finset.card_range] at h1
          rw [hJ'eq, Finset.card_insert_of_not_mem hjJ] at h1
          exact h1
        rw [feed_step_ins P seq now _ fl j hn255 hj hjJ hcard]
        refine ⟨fl ||| (fragPacket P seq (numFrags P.data.length)
          j).header.flags, ?_, ?_⟩
        · rw [Nat.testBit_lor, fragPacket_flags_bit, hbit, Bool.or_self]
        · rw [hJ'eq]
          rw [show asmOf P now
            (insert j ((M.map fun q => q.header.frag_idx).toFinset))
            (fl ||| (fragPacket P seq (numFrags P.data.length)
              j).header.flags) = ⟨[(pKey P, pState P now
            (insert j ((M.map fun q => q.header.frag_idx).toFinset))
            (fl ||| (fragPacket P seq (numFrags P.data.length)
              j).header.flags))]⟩ from by rw [asmOf, if_neg (by simp)]]
          rfl


/-- Feeding any sequence of fragments of `P` that covers every index,
whose last element is the only occurrence of its index, emits exactly
one packet: the reassembled image of `P`. -/
theorem roundtrip_core (P : EncodedPacket) (seq now : Nat)
    (hne : P.data ≠ []) (hn255 : numFrags P.data.length ≤ 255)
    (M : List Packet) (j : Nat)
    (hM : ∀ p ∈ M, ∃ i, i < numFrags P.data.length ∧
      p = fragPacket P seq (numFrags P.data.length) i)
    (hj : j < numFrags P.data.length)
    (hcov : ∀ i, i < numFrags P.data.length → i ≠ j →
      i ∈ (M.map fun p => p.header.frag_idx))
    (hlast : ∀ p ∈ M, p.header.frag_idx ≠ j) :
    (PacketAssembler.mk []).feedAll now
        (M ++ [fragPacket P seq (numFrags P.data.length) j]) =
      ([reassembled P], ⟨[]⟩) := by
  have hJeq : (M.map fun p => p.header.frag_idx).toFinset =
      (Finset.range (numFrags P.data.length)).erase j := by
    apply Finset.Subset.antisymm
    · intro x hx
      rw [List.mem_toFinset, List.mem_map] at hx
      obtain ⟨q, hq, hq2⟩ := hx
      obtain ⟨i, hi, hq3⟩ := hM q hq
      rw [Finset.mem_erase]
      constructor
      · rw [← hq2]
        exact hlast q hq
      · rw [← hq2, hq3, fragPacket_frag_idx, Nat.mod_eq_of_lt (by omega)]
        exact Finset.mem_range.2 hi
    · intro x hx
      rw [Finset.mem_erase, Finset.mem_range] at hx
      rw [List.mem_toFinset]
      exact hcov x hx.2 hx.1
  have hJne : (M.map fun p => p.header.frag_idx).toFinset ≠
      Finset.range (numFrags P.data.length) := by
    rw [hJeq]
    intro hcon
    have : j ∈ (Finset.range (numFrags P.data.length)).erase j := by
      rw [hcon]
      exact Finset.mem_range.2 hj
    exact absurd this (Finset.not_mem_erase j _)
  obtain ⟨fl, hbit, heq⟩ := feedAll_partial P seq now hne hn255 M hM hJne
  rw [feedAll_snoc, heq]
  rcases Nat.lt_or_ge 1 (numFrags P.data.length) with hn1 | hn1
  · -- at least two fragments: the pending entry holds all but index j
    have hJne2 : (M.map fun p => p.header.frag_idx).toFinset ≠ ∅ := by
      rw [hJeq]
      intro hcon
      have hcard := congrArg Finset.card hcon
      rw [Finset.card_erase_of_mem (Finset.mem_range.2 hj),
        Finset.card_range, Finset.card_empty] at hcard
      omega
    rw [show asmOf P now (M.map fun p => p.header.frag_idx).toFinset fl =
      ⟨[(pKey P, pState P now (M.map fun p => p.header.frag_idx).toFinset
        fl)]⟩ from by rw [asmOf, if_neg hJne2]]
    rw [feed_step_complete P seq now _ fl j hn255 hj
      (by rw [hJeq]; exact Finset.not_mem_erase j _)
      (by rw [hJeq]; exact Finset.erase_subset j _)
      (by
        rw [hJeq, Finset.card_erase_of_mem (Finset.mem_range.2 hj),
          Finset.card_range]
        omega)
      hbit]
    rfl
  · -- single fragment
    have hn1e : numFrags P.data.length = 1 := by
      have hlen0 : P.data.length ≠ 0 := by
        intro hc
        exact hne (List.eq_nil_of_length_eq_zero hc)
      have := numFrags_pos hlen0
      omega
    have hj0 : j = 0 := by omega
    have hJe : (M.map fun p => p.header.frag_idx).toFinset = ∅ := by
      rw [hJeq, hn1e, hj0]
      rfl
    rw [show asmOf P now (M.map fun p => p.header.frag_idx).toFinset fl =
      ⟨[]⟩ from by rw [asmOf, if_pos hJe]]
    subst hj0
    rw [feed_step_create_complete P seq now hne hn1e]
    rfl


/-- C1 counterexample: for a one-byte packet the claim fails when the
duplicate of its single fragment is inserted after the completing
fragment: the assembler emits TWO packets (the duplicate starts a fresh
pending entry which immediately completes), not exactly one. -/
theorem C1_counterexample :
    ((PacketAssembler.mk []).feedAll 0
        ((PacketFragmenter.fragment P0ex 0).1 ++
          (PacketFragmenter.fragment P0ex 0).1)).1.length = 2 := by
  decide

/-- C1 (amended): feeding the fragments of `P` (data non-empty, at most
255·1184 bytes) into a fresh assembler in any order, with any duplicate
fragments inserted before the frame completes — i.e. the feed is
`M ++ [f]` where every element is a fragment of `P`, every fragment
index occurs, and the index of the last element `f` occurs only there —
emits exactly one packet, whose data equals `P.data` and whose frame
type equals `P.type`.  (A duplicate arriving after emission starts a
fresh pending entry and, for a single-fragment frame, emits again — the
counterexample.) -/
theorem C1_fragment_reassemble (P : EncodedPacket) (seq now : Nat)
    (hne : P.data ≠ [])
    (hlen : P.data.length ≤ 255 * 1184)
    (M : List Packet) (f : Packet)
    (hM : ∀ p ∈ M, p ∈ (PacketFragmenter.fragment P seq).1)
    (hf : f ∈ (PacketFragmenter.fragment P seq).1)
    (hcov : ∀ q ∈ (PacketFragmenter.fragment P seq).1,
      q.header.frag_idx = f.header.frag_idx ∨
        q.header.frag_idx ∈ (M.map fun p => p.header.frag_idx))
    (hlast : ∀ p ∈ M, p.header.frag_idx ≠ f.header.frag_idx) :
    ∃ out, (PacketAssembler.mk []).feedAll now (M ++ [f]) = ([out], ⟨[]⟩) ∧
      out.data = P.data ∧ out.type = P.type := by
  have hlen0 : P.data.length ≠ 0 := fun hc =>
    hne (List.eq_nil_of_length_eq_zero hc)
  have hn255 : numFrags P.data.length ≤ 255 := numFrags_le_255 hlen
  have hfrag : (PacketFragmenter.fragment P seq).1 =
      (List.range (numFrags P.data.length)).map
        (fragPacket P seq (numFrags P.data.length)) := by
    simp only [PacketFragmenter.fragment, if_neg hlen0]
  rw [hfrag] at hM hf hcov
  obtain ⟨j, hjr, hjf⟩ := List.mem_map.1 hf
  have hj : j < numFrags P.data.length := List.mem_range.1 hjr
  have ej : j % 256 = j := Nat.mod_eq_of_lt (by omega)
  subst hjf
  have hidxf : (fragPacket P seq (numFrags P.data.length)
      j).header.frag_idx = j := by
    rw [fragPacket_frag_idx, ej]
  have hM2 : ∀ p ∈ M, ∃ i, i < numFrags P.data.length ∧
      p = fragPacket P seq (numFrags P.data.length) i := by
    intro p hp
    obtain ⟨i, hir, hip⟩ := List.mem_map.1 (hM p hp)
    exact ⟨i, List.mem_range.1 hir, hip.symm⟩
  have hcov2 : ∀ i, i < numFrags P.data.length → i ≠ j →
      i ∈ (M.map fun p => p.header.frag_idx) := by
    intro i hi hij
    have hqi : fragPacket P seq (numFrags P.data.length) i ∈
        (List.range (numFrags P.data.length)).map
          (fragPacket P seq (numFrags P.data.length)) :=
      List.mem_map_of_mem _ (List.mem_range.2 hi)
    have ei : i % 256 = i := Nat.mod_eq_of_lt (by omega)
    rcases hcov _ hqi with hc | hc
    · rw [fragPacket_frag_idx, ei, hidxf] at hc
      exact absurd hc hij
    · rw [fragPacket_frag_idx, ei] at hc
      exact hc
  have hlast2 : ∀ p ∈ M, p.header.frag_idx ≠ j := by
    intro p hp
    rw [← hidxf]
    exact hlast p hp
  refine ⟨reassembled P, ?_, rfl, rfl⟩
  exact roundtrip_core P seq now hne hn255 M j hM2 hj hcov2 hlast2

/-- C1 witness: the single-fragment packet `P1ex`. -/
theorem C1_fragment_reassemble_witness :
    (P1ex.data ≠ [] ∧ P1ex.data.length ≤ 255 * 1184 ∧
        fragPacket P1ex 0 1 0 ∈ (PacketFragmenter.fragment P1ex 0).1) ∧
      ∃ out, (PacketAssembler.mk []).feedAll 0
          (([] : List Packet) ++ [fragPacket P1ex 0 1 0]) = ([out], ⟨[]⟩) ∧
        out.data = P1ex.data ∧ out.type = P1ex.type :=
  ⟨⟨by decide, by decide, by decide⟩,
    C1_fragment_reassemble P1ex 0 0 (by decide) (by decide) [] _
      (fun p hp => absurd hp (List.not_mem_nil p))
      (by decide)
      (by decide)
      (fun p hp => absurd hp (List.not_mem_nil p))⟩

/-- C9: feeding the fragments of `P` (in order) into a fresh assembler
emits one packet whose `pts_us` is the original timestamp reduced
modulo 2^32 (the 32-bit header timestamp zero-extended to 64 bits);
consequently a presentation timestamp of 2^32 µs or more is not
preserved by the round trip. -/
theorem C9_pts_low_bits (P : EncodedPacket) (seq now : Nat)
    (hne : P.data ≠ [])
    (hlen : P.data.length ≤ 255 * 1184) :
    ∃ out, (PacketAssembler.mk []).feedAll now
        (PacketFragmenter.fragment P seq).1 = ([out], ⟨[]⟩) ∧
      out.pts_us = P.pts_us % 2 ^ 32 ∧
      ((2 ^ 32 : Int) ≤ P.pts_us → out.pts_us ≠ P.pts_us) := by
  have hlen0 : P.data.length ≠ 0 := fun hc =>
    hne (List.eq_nil_of_length_eq_zero hc)
  have hn255 : numFrags P.data.length ≤ 255 := numFrags_le_255 hlen
  have hn0 : 0 < numFrags P.data.length := numFrags_pos hlen0
  have hfrag : (PacketFragmenter.fragment P seq).1 =
      (List.range (numFrags P.data.length)).map
        (fragPacket P seq (numFrags P.data.length)) := by
    simp only [PacketFragmenter.fragment, if_neg hlen0]
  have hsplit : List.range (numFrags P.data.length) =
      List.range (numFrags P.data.length - 1) ++
        [numFrags P.data.length - 1] := by
    have hp : numFrags P.data.length = (numFrags P.data.length - 1) + 1 := by
      omega
    rw [hp, List.range_succ]
    simp
  have hrt := roundtrip_core P seq now hne hn255
    ((List.range (numFrags P.data.length - 1)).map
      (fragPacket P seq (numFrags P.data.length)))
    (numFrags P.data.length - 1)
    (by
      intro p hp
      obtain ⟨i, hir, hip⟩ := List.mem_map.1 hp
      have hi : i < numFrags P.data.length - 1 := List.mem_range.1 hir
      exact ⟨i, by omega, hip.symm⟩)
    (by omega)
    (by
      intro i hi hij
      have hi2 : i < numFrags P.data.length - 1 := by omega
      have ei : i % 256 = i := Nat.mod_eq_of_lt (by omega)
      refine List.mem_map.2 ⟨fragPacket P seq (numFrags P.data.length) i,
        List.mem_map_of_mem _ (List.mem_range.2 hi2), ?_⟩
      rw [fragPacket_frag_idx, ei])
    (by
      intro p hp
      obtain ⟨i, hir, hip⟩ := List.mem_map.1 hp
      have hi : i < numFrags P.data.length - 1 := List.mem_range.1 hir
      rw [← hip, fragPacket_frag_idx, Nat.mod_eq_of_lt (by omega)]
      omega)
  rw [hfrag, hsplit, List.map_append]
  refine ⟨reassembled P, ?_, ?_, ?_⟩
  · simpa using hrt
  · show ((P.pts_us % (2 ^ 32 : Int)).toNat : Int) = P.pts_us % 2 ^ 32
    exact Int.toNat_of_nonneg (Int.emod_nonneg _ (by norm_num))
  · intro hge
    have h1 : P.pts_us % (2 ^ 32 : Int) < 2 ^ 32 :=
      Int.emod_lt_of_pos _ (by norm_num)
    have h2 : ((P.pts_us % (2 ^ 32 : Int)).toNat : Int) =
        P.pts_us % 2 ^ 32 :=
      Int.toNat_of_nonneg (Int.emod_nonneg _ (by norm_num))
    show ((P.pts_us % (2 ^ 32 : Int)).toNat : Int) ≠ P.pts_us
    rw [h2]
    exact ne_of_lt (lt_of_lt_of_le h1 hge)

/-- C9 witness: an audio packet with pts 2^32 + 5 µs comes back with
pts 5. -/
theorem C9_pts_low_bits_witness :
    (P9ex.data ≠ [] ∧ P9ex.data.length ≤ 255 * 1184 ∧
        (2 ^ 32 : Int) ≤ P9ex.pts_us) ∧
      ∃ out, (PacketAssembler.mk []).feedAll 0
          (PacketFragmenter.fragment P9ex 0).1 = ([out], ⟨[]⟩) ∧
        out.pts_us = P9ex.pts_us % 2 ^ 32 ∧
        ((2 ^ 32 : Int) ≤ P9ex.pts_us → out.pts_us ≠ P9ex.pts_us) :=
  ⟨⟨by decide, by decide, by decide⟩, C9_pts_low_bits P9ex 0 0 (by decide)
    (by decide)⟩

end Lancast
